import Mathlib

/-!
# Verification of the ERP-Sync plugin (ERP-Sync-Plugin)

Shallow embedding of the Go sources under `src/server` into Lean 4, together
with proofs of the specification claims.

* `server/plugin.go` — identity normalizer: `GenerateUsername`, `removeAccents`,
  `randomString`, `GenerateRandomPassword`.
* `server/erpnext/client.go` — `GetEmployees` pagination loop.
* `server/api.go` — the two reconciliation runs `SyncEmployees` (ERP→chat) and
  `SyncUsers` (chat→ERP).

Strings are modelled as lists of characters (`List Char`, one entry per Go
rune); random sources (`math/rand` seeded per call) are modelled as oracle
functions `Nat → Nat` supplying the successive `Intn` draws; the Unicode
lowercasing `strings.ToLower` is modelled as an arbitrary per-rune map
`lower : Char → Char` (every theorem below holds for every such map, hence for
the real Unicode one).
-/

/-! ## Identity normalizer (server/plugin.go) -/

/-- The accent-substitution table of `removeAccents` (plugin.go:162-188), one
pair per entry of the Go map literal.  Keys are single runes; values are the
ASCII replacements. -/
def accentTable : List (Char × List Char) :=
  [ ('à', ['a']), ('á', ['a']), ('ạ', ['a']), ('ả', ['a']), ('ã', ['a']),
    ('â', ['a']), ('ầ', ['a']), ('ấ', ['a']), ('ậ', ['a']), ('ẩ', ['a']), ('ẫ', ['a']),
    ('ă', ['a']), ('ằ', ['a']), ('ắ', ['a']), ('ặ', ['a']), ('ẳ', ['a']), ('ẵ', ['a']),
    ('è', ['e']), ('é', ['e']), ('ẹ', ['e']), ('ẻ', ['e']), ('ẽ', ['e']),
    ('ê', ['e']), ('ề', ['e']), ('ế', ['e']), ('ệ', ['e']), ('ể', ['e']), ('ễ', ['e']),
    ('ì', ['i']), ('í', ['i']), ('ị', ['i']), ('ỉ', ['i']), ('ĩ', ['i']),
    ('ò', ['o']), ('ó', ['o']), ('ọ', ['o']), ('ỏ', ['o']), ('õ', ['o']),
    ('ô', ['o']), ('ồ', ['o']), ('ố', ['o']), ('ộ', ['o']), ('ổ', ['o']), ('ỗ', ['o']),
    ('ơ', ['o']), ('ờ', ['o']), ('ớ', ['o']), ('ợ', ['o']), ('ở', ['o']), ('ỡ', ['o']),
    ('ù', ['u']), ('ú', ['u']), ('ụ', ['u']), ('ủ', ['u']), ('ũ', ['u']),
    ('ư', ['u']), ('ừ', ['u']), ('ứ', ['u']), ('ự', ['u']), ('ử', ['u']), ('ữ', ['u']),
    ('ỳ', ['y']), ('ý', ['y']), ('ỵ', ['y']), ('ỷ', ['y']), ('ỹ', ['y']),
    ('đ', ['d']),
    ('ç', ['c']), ('ñ', ['n']), ('ü', ['u']), ('ö', ['o']), ('ä', ['a']),
    ('ß', ['s', 's']), ('ø', ['o']), ('å', ['a']), ('æ', ['a', 'e']), ('œ', ['o', 'e']),
    ('ğ', ['g']), ('ş', ['s']), ('ı', ['i']), ('ţ', ['t']), ('ț', ['t']),
    ('ș', ['s']), ('ř', ['r']), ('č', ['c']), ('ě', ['e']), ('š', ['s']),
    ('ň', ['n']), ('ď', ['d']), ('ť', ['t']), ('ĺ', ['l']), ('ľ', ['l']),
    ('ź', ['z']), ('ż', ['z']), ('ć', ['c']), ('ń', ['n']), ('ą', ['a']),
    ('ę', ['e']), ('ł', ['l']), ('ő', ['o']), ('ű', ['u']), ('ž', ['z']),
    ('ů', ['u']), ('ā', ['a']), ('ē', ['e']), ('ī', ['i']), ('ū', ['u']),
    ('ģ', ['g']), ('ķ', ['k']), ('ļ', ['l']), ('ņ', ['n']), ('ŗ', ['r']) ]

/-- One rune of `removeAccents`: the table replacement if the rune is a key,
the rune itself otherwise.  (The Go code iterates `strings.ReplaceAll` over the
map; since every key is a single rune and every value is pure ASCII the result
equals this per-rune substitution.) -/
def removeAccentsChar (c : Char) : List Char :=
  (accentTable.lookup c).getD [c]

/-- `removeAccents` (plugin.go:160-196) on a rune list. -/
def removeAccentsL (s : List Char) : List Char :=
  (s.map removeAccentsChar).flatten

/-- Is `c` in `[a-z0-9]` — the character class kept by the
`[^a-z0-9]` replacement regex of `GenerateUsername` (plugin.go:131). -/
def isAlnumLower (c : Char) : Bool :=
  ('a' ≤ c && c ≤ 'z') || ('0' ≤ c && c ≤ '9')

/-- Is `c` a legal username character `[a-z0-9_]`. -/
def validUChar (c : Char) : Bool :=
  isAlnumLower c || c == '_'

/-- The `[^a-z0-9]` → `_` replacement (plugin.go:131-132), rune-wise. -/
def sanitizeChar (c : Char) : Char :=
  if isAlnumLower c then c else '_'

/-- The `_+` → `_` collapse (plugin.go:135-136): drop an underscore that is
immediately followed by another. -/
def collapseU : List Char → List Char
  | [] => []
  | [c] => [c]
  | c :: d :: rest =>
    if c == '_' && d == '_' then collapseU (d :: rest)
    else c :: collapseU (d :: rest)

/-- `strings.Trim(username, "_")` (plugin.go:139). -/
def trimU (l : List Char) : List Char :=
  ((l.dropWhile (fun c => c == '_')).reverse.dropWhile (fun c => c == '_')).reverse

/-- The `charset` of `randomString` (plugin.go:200). -/
def rsCharset : List Char :=
  [ 'a', 'b', 'c', 'd', 'e', 'f', 'g', 'h', 'i', 'j', 'k', 'l', 'm',
    'n', 'o', 'p', 'q', 'r', 's', 't', 'u', 'v', 'w', 'x', 'y', 'z',
    '0', '1', '2', '3', '4', '5', '6', '7', '8', '9' ]

/-- `randomString` (plugin.go:199-209).  The per-call seeded `rand` source is
the oracle `r`: draw `i` of the call is `r i`, reduced mod 36 exactly as
`Intn(len(charset))` does. -/
def randomStringL (r : Nat → Nat) (len : Nat) : List Char :=
  (List.range len).map (fun i => rsCharset.getD (r i % 36) 'a')

/-- The `for len(username) < 3` padding loop of `GenerateUsername`
(plugin.go:147-149); `c` numbers the `randomString` calls (each Go call
re-seeds, so each gets its own oracle row `r c`).  Structural recursion on a
fuel argument: every iteration appends exactly 4 characters, so the Go `while`
loop runs at most once and any fuel ≥ 1 realises it exactly
(`padAux_fuel_irrel` below). -/
def padAux (r : Nat → Nat → Nat) : Nat → Nat → List Char → List Char
  | 0, _, u => u
  | fuel + 1, c, u =>
    if u.length < 3 then padAux r fuel (c + 1) (u ++ '_' :: randomStringL (r c) 3)
    else u

def padUsernameL (r : Nat → Nat → Nat) (c : Nat) (u : List Char) : List Char :=
  padAux r 3 c u

/-- `GenerateUsername` (plugin.go:117-157) on rune lists.
`lower` models the per-rune Unicode map of `strings.ToLower`; `r c i` is draw
`i` of the `c`-th `randomString` call (call 0: the empty-name fallback,
calls 1,2,…: the padding loop). -/
def generateUsernameL (lower : Char → Char) (r : Nat → Nat → Nat)
    (first last : List Char) : List Char :=
  let full := if last ≠ [] then first ++ '.' :: last else first
  let full := removeAccentsL (full.map lower)
  let u := trimU (collapseU (full.map sanitizeChar))
  let u := if u = [] then ('u' :: 's' :: 'e' :: 'r' :: '_' :: randomStringL (r 0) 6) else u
  let u := padUsernameL r 1 u
  if 22 < u.length then u.take 22 else u

/-- `GenerateUsername` on strings. -/
def GenerateUsername (lower : Char → Char) (r : Nat → Nat → Nat)
    (firstName lastName : String) : String :=
  String.mk (generateUsernameL lower r firstName.data lastName.data)

/-! ### Character-set lemmas for `GenerateUsername` -/

theorem validUChar_sanitizeChar (c : Char) : validUChar (sanitizeChar c) = true := by
  unfold sanitizeChar validUChar
  by_cases h : isAlnumLower c = true
  · simp [h]
  · simp [h]

theorem mem_collapseU {c : Char} : ∀ {l : List Char}, c ∈ collapseU l → c ∈ l
  | [], h => by simp [collapseU] at h
  | [d], h => by simpa [collapseU] using h
  | d :: e :: rest, h => by
    unfold collapseU at h
    by_cases hde : (d == '_' && e == '_') = true
    · rw [if_pos hde] at h
      exact List.mem_cons_of_mem _ (mem_collapseU h)
    · rw [if_neg hde] at h
      rcases List.mem_cons.1 h with h1 | h2
      · exact h1 ▸ List.mem_cons_self _ _
      · exact List.mem_cons_of_mem _ (mem_collapseU h2)

theorem mem_trimU {c : Char} {l : List Char} (h : c ∈ trimU l) : c ∈ l := by
  unfold trimU at h
  rw [List.mem_reverse] at h
  have h1 := (List.dropWhile_sublist (l := (l.dropWhile (fun c => c == '_')).reverse)
    (p := fun c => c == '_')).mem h
  rw [List.mem_reverse] at h1
  exact (List.dropWhile_sublist (l := l) (p := fun c => c == '_')).mem h1

theorem rsCharset_valid : ∀ c ∈ rsCharset, validUChar c = true := by decide

theorem mem_randomStringL {c : Char} {r : Nat → Nat} {len : Nat}
    (h : c ∈ randomStringL r len) : validUChar c = true := by
  unfold randomStringL at h
  rcases List.mem_map.1 h with ⟨i, _, rfl⟩
  apply rsCharset_valid
  have h36 : r i % 36 < rsCharset.length := by
    have : r i % 36 < 36 := Nat.mod_lt _ (by omega)
    simpa [rsCharset] using this
  rw [List.getD_eq_getElem _ _ h36]
  exact List.getElem_mem h36

theorem length_randomStringL (r : Nat → Nat) (len : Nat) :
    (randomStringL r len).length = len := by
  simp [randomStringL]

theorem padAux_of_ge (r : Nat → Nat → Nat) :
    ∀ (fuel c : Nat) (u : List Char), 3 ≤ u.length → padAux r fuel c u = u := by
  intro fuel c u h
  cases fuel with
  | zero => rfl
  | succ f => rw [padAux, if_neg (by omega)]

/-- Any fuel ≥ 1 computes the same result, so fuel 3 realises the Go loop. -/
theorem padAux_fuel_irrel (r : Nat → Nat → Nat) (fuel c : Nat) (u : List Char) :
    padAux r (fuel + 1) c u = padAux r 1 c u := by
  rw [padAux, padAux]
  by_cases h : u.length < 3
  · rw [if_pos h, if_pos h]
    have h4 : 3 ≤ (u ++ '_' :: randomStringL (r c) 3).length := by
      simp [length_randomStringL]
    rw [padAux_of_ge r fuel _ _ h4, padAux_of_ge r 0 _ _ h4]
  · rw [if_neg h, if_neg h]

theorem padAux_valid (r : Nat → Nat → Nat) :
    ∀ (fuel c : Nat) (u : List Char), (∀ x ∈ u, validUChar x = true) →
      ∀ x ∈ padAux r fuel c u, validUChar x = true := by
  intro fuel
  induction fuel with
  | zero => intro c u hu; exact hu
  | succ f ih =>
    intro c u hu x hx
    rw [padAux] at hx
    by_cases h : u.length < 3
    · rw [if_pos h] at hx
      refine ih _ _ ?_ x hx
      intro y hy
      rcases List.mem_append.1 hy with h1 | h2
      · exact hu y h1
      · rcases List.mem_cons.1 h2 with h3 | h4
        · subst h3; decide
        · exact mem_randomStringL h4
    · rw [if_neg h] at hx
      exact hu x hx

theorem padUsernameL_valid (r : Nat → Nat → Nat) (c : Nat) (u : List Char)
    (hu : ∀ x ∈ u, validUChar x = true) :
    ∀ x ∈ padUsernameL r c u, validUChar x = true :=
  padAux_valid r 3 c u hu

theorem padUsernameL_length (r : Nat → Nat → Nat) (c : Nat) (u : List Char) :
    3 ≤ (padUsernameL r c u).length := by
  unfold padUsernameL
  rw [padAux]
  by_cases h : u.length < 3
  · rw [if_pos h]
    have h4 : 3 ≤ (u ++ '_' :: randomStringL (r c) 3).length := by
      simp [length_randomStringL]
    rw [padAux_of_ge r 2 _ _ h4]
    exact h4
  · rw [if_neg h]
    omega

theorem pad_truncate_spec (r : Nat → Nat → Nat) (u1 : List Char)
    (hu1valid : ∀ c ∈ u1, validUChar c = true) :
    3 ≤ (if 22 < (padUsernameL r 1 u1).length then (padUsernameL r 1 u1).take 22
          else padUsernameL r 1 u1).length ∧
      (if 22 < (padUsernameL r 1 u1).length then (padUsernameL r 1 u1).take 22
          else padUsernameL r 1 u1).length ≤ 22 ∧
      ∀ c ∈ (if 22 < (padUsernameL r 1 u1).length then (padUsernameL r 1 u1).take 22
          else padUsernameL r 1 u1), validUChar c = true := by
  have hpadvalid : ∀ c ∈ padUsernameL r 1 u1, validUChar c = true :=
    padUsernameL_valid r 1 u1 hu1valid
  have hpadlen : 3 ≤ (padUsernameL r 1 u1).length := padUsernameL_length r 1 u1
  by_cases hlen : 22 < (padUsernameL r 1 u1).length
  · rw [if_pos hlen]
    refine ⟨?_, ?_, ?_⟩
    · rw [List.length_take]; omega
    · rw [List.length_take]; omega
    · intro c hc
      exact hpadvalid c ((List.take_sublist _ _).mem hc)
  · rw [if_neg hlen]
    exact ⟨hpadlen, by omega, hpadvalid⟩

theorem generateUsernameL_spec (lower : Char → Char) (r : Nat → Nat → Nat)
    (first last : List Char) :
    3 ≤ (generateUsernameL lower r first last).length ∧
      (generateUsernameL lower r first last).length ≤ 22 ∧
      ∀ c ∈ generateUsernameL lower r first last, validUChar c = true := by
  unfold generateUsernameL
  refine pad_truncate_spec r _ ?_
  intro c hc
  by_cases h0 : trimU (collapseU ((removeAccentsL
      ((if last ≠ [] then first ++ '.' :: last else first).map lower)).map sanitizeChar)) = []
  · rw [if_pos h0] at hc
    rcases List.mem_cons.1 hc with h | hc; · subst h; decide
    rcases List.mem_cons.1 hc with h | hc; · subst h; decide
    rcases List.mem_cons.1 hc with h | hc; · subst h; decide
    rcases List.mem_cons.1 hc with h | hc; · subst h; decide
    rcases List.mem_cons.1 hc with h | hc; · subst h; decide
    exact mem_randomStringL hc
  · rw [if_neg h0] at hc
    have hc2 := mem_collapseU (mem_trimU hc)
    rcases List.mem_map.1 hc2 with ⟨d, _, rfl⟩
    exact validUChar_sanitizeChar d

/-- C5.  `GenerateUsername` is total and always yields a username matching
`[a-z0-9_]{3,22}` — non-empty, at least 3 and at most 22 characters, every
character a lowercase ASCII letter, digit or underscore (hence no accented
characters).  Quantified over every per-rune lowercasing map `lower` (so it
holds for the real Unicode `strings.ToLower`), every random oracle and every
pair of input strings, including `""`, `("Nguyễn","Văn")` and
`("Müller","Schröder")`. -/
theorem generateUsername_valid (lower : Char → Char) (r : Nat → Nat → Nat)
    (firstName lastName : String) :
    GenerateUsername lower r firstName lastName ≠ "" ∧
      3 ≤ (GenerateUsername lower r firstName lastName).length ∧
      (GenerateUsername lower r firstName lastName).length ≤ 22 ∧
      ∀ c ∈ (GenerateUsername lower r firstName lastName).data, validUChar c = true := by
  obtain ⟨h3, h22, hv⟩ := generateUsernameL_spec lower r firstName.data lastName.data
  unfold GenerateUsername
  refine ⟨?_, ?_, ?_, ?_⟩
  · intro h
    have : (generateUsernameL lower r firstName.data lastName.data).length = 0 := by
      have := congrArg String.length h
      simpa using this
    omega
  · simpa using h3
  · simpa using h22
  · simpa using hv

/-- The `GenerateUsername` result on the spec's concrete test inputs: ASCII
lowercasing of the uppercase initials, accent transliteration, dot → underscore
(no randomness is consumed on these inputs). -/
theorem generateUsername_examples :
    GenerateUsername Char.toLower (fun _ _ => 0) "Nguyễn" "Văn" = "nguyen_van" ∧
      GenerateUsername Char.toLower (fun _ _ => 0) "Müller" "Schröder" = "muller_schroder" ∧
      GenerateUsername Char.toLower (fun _ _ => 0) "" "" = "user_aaaaaa" := by
  refine ⟨?_, ?_, ?_⟩ <;> decide

/-! ## Password generator (server/plugin.go:213-245) -/

def charsetLower : List Char :=
  [ 'a', 'b', 'c', 'd', 'e', 'f', 'g', 'h', 'i', 'j', 'k', 'l', 'm',
    'n', 'o', 'p', 'q', 'r', 's', 't', 'u', 'v', 'w', 'x', 'y', 'z' ]

def charsetUpper : List Char :=
  [ 'A', 'B', 'C', 'D', 'E', 'F', 'G', 'H', 'I', 'J', 'K', 'L', 'M',
    'N', 'O', 'P', 'Q', 'R', 'S', 'T', 'U', 'V', 'W', 'X', 'Y', 'Z' ]

def charsetNumber : List Char :=
  [ '0', '1', '2', '3', '4', '5', '6', '7', '8', '9' ]

/-- `charsetSpecial` = `"!@#$%^&*()-_=+[]\x7b\x7d|;:,.<>?"` (plugin.go:221). -/
def charsetSpecial : List Char :=
  [ '!', '@', '#', '$', '%', '^', '&', '*', '(', ')', '-', '_', '=',
    '+', '[', ']', '\x7b', '\x7d', '|', ';', ':', ',', '.', '<', '>', '?' ]

/-- `password[i], password[j] = password[j], password[i]` — the swap callback
handed to `rand.Shuffle` (plugin.go:240-242). -/
def swapL (l : List Char) (i j : Nat) : List Char :=
  (l.set i (l.getD j 'a')).set j (l.getD i 'a')

/-- `rand.Shuffle`'s Fisher–Yates loop: for `i = n−1` down to `1`, swap `i`
with `r i % (i+1)` (the `Intn(i+1)` draw, supplied by oracle row `r`). -/
def shuffleAux (r : Nat → Nat) : Nat → List Char → List Char
  | 0, l => l
  | i + 1, l => shuffleAux r i (swapL l (i + 1) (r (i + 1) % (i + 2)))

def shuffleL (r : Nat → Nat) (l : List Char) : List Char :=
  shuffleAux r (l.length - 1) l

/-- `GenerateRandomPassword` (plugin.go:213-245) on rune lists.  The single
seeded `rand` source is the oracle `r`: draws `0..3` pick the four mandatory
class characters, draws `4..length-1` fill the remainder from the union
charset, and (indices shifted past the fill draws) rows `length+…` drive the
shuffle. -/
def generateRandomPasswordL (r : Nat → Nat) (length : Nat) : List Char :=
  let length := if length < 8 then 8 else length
  let seed := [ charsetLower.getD (r 0 % 26) 'a',
                charsetUpper.getD (r 1 % 26) 'a',
                charsetNumber.getD (r 2 % 10) 'a',
                charsetSpecial.getD (r 3 % 26) 'a' ]
  let allCharset := charsetLower ++ charsetUpper ++ charsetNumber ++ charsetSpecial
  let filled := seed ++ (List.range (length - 4)).map
    (fun i => allCharset.getD (r (4 + i) % 88) 'a')
  shuffleL (fun i => r (length + i)) filled

/-- `GenerateRandomPassword` on strings. -/
def GenerateRandomPassword (r : Nat → Nat) (length : Nat) : String :=
  String.mk (generateRandomPasswordL r length)

/-! ### Shuffle permutation lemmas and the password policy (C6) -/

theorem perm_getD_set (a : Char) :
    ∀ (t : List Char) (m : Nat), m < t.length →
      (t.getD m 'a' :: t.set m a).Perm (a :: t) := by
  intro t
  induction t with
  | nil => intro m hm; simp at hm
  | cons b t2 ih =>
    intro m hm
    cases m with
    | zero => simpa using List.Perm.swap a b t2
    | succ k =>
      have hk : k < t2.length := by simpa using hm
      have step1 : (t2.getD k 'a' :: b :: t2.set k a).Perm (b :: t2.getD k 'a' :: t2.set k a) :=
        List.Perm.swap b (t2.getD k 'a') (t2.set k a)
      have step2 : (b :: t2.getD k 'a' :: t2.set k a).Perm (b :: a :: t2) :=
        (ih k hk).cons b
      have step3 : (b :: a :: t2).Perm (a :: b :: t2) := List.Perm.swap a b t2
      simpa using (step1.trans step2).trans step3

theorem swapL_perm :
    ∀ (l : List Char) (i j : Nat), i < l.length → j < l.length →
      (swapL l i j).Perm l := by
  intro l
  induction l with
  | nil => intro i j hi _; simp at hi
  | cons a t ih =>
    intro i j hi hj
    cases i with
    | zero =>
      cases j with
      | zero => simp [swapL]
      | succ m =>
        have hm : m < t.length := by simpa using hj
        simpa [swapL] using perm_getD_set a t m hm
    | succ n =>
      cases j with
      | zero =>
        have hn : n < t.length := by simpa using hi
        simpa [swapL] using perm_getD_set a t n hn
      | succ m =>
        have hn : n < t.length := by simpa using hi
        have hm : m < t.length := by simpa using hj
        simpa [swapL] using (ih n m hn hm).cons a

theorem shuffleAux_perm (r : Nat → Nat) :
    ∀ (i : Nat) (l : List Char), i < l.length → (shuffleAux r i l).Perm l := by
  intro i
  induction i with
  | zero => intro l _; exact List.Perm.refl l
  | succ n ih =>
    intro l hl
    rw [shuffleAux]
    have hj : r (n + 1) % (n + 2) < l.length := by
      have := Nat.mod_lt (r (n + 1)) (y := n + 2) (by omega)
      omega
    have hswap : (swapL l (n + 1) (r (n + 1) % (n + 2))).Perm l := swapL_perm l _ _ hl hj
    have hlen : (swapL l (n + 1) (r (n + 1) % (n + 2))).length = l.length := hswap.length_eq
    exact (ih _ (by omega)).trans hswap

theorem shuffleL_perm (r : Nat → Nat) (l : List Char) : (shuffleL r l).Perm l := by
  cases l with
  | nil => exact List.Perm.refl _
  | cons a t =>
    exact shuffleAux_perm r _ _ (by simp)

theorem shuffleL_mem {c : Char} (r : Nat → Nat) {l : List Char} (h : c ∈ l) :
    c ∈ shuffleL r l :=
  (shuffleL_perm r l).mem_iff.2 h

theorem shuffleL_length (r : Nat → Nat) (l : List Char) :
    (shuffleL r l).length = l.length :=
  (shuffleL_perm r l).length_eq

def isLowerChar (c : Char) : Bool := 'a' ≤ c && c ≤ 'z'

def isUpperChar (c : Char) : Bool := 'A' ≤ c && c ≤ 'Z'

def isDigitChar (c : Char) : Bool := '0' ≤ c && c ≤ '9'

/-- A symbol character: member of the special charset of plugin.go:221. -/
def isSymbolChar (c : Char) : Bool := charsetSpecial.contains c

theorem charsetLower_class : ∀ c ∈ charsetLower, isLowerChar c = true := by decide

theorem charsetUpper_class : ∀ c ∈ charsetUpper, isUpperChar c = true := by decide

theorem charsetNumber_class : ∀ c ∈ charsetNumber, isDigitChar c = true := by decide

theorem charsetSpecial_class : ∀ c ∈ charsetSpecial, isSymbolChar c = true := by decide

theorem getD_mem_of_lt {l : List Char} {n : Nat} (h : n < l.length) (d : Char) :
    l.getD n d ∈ l := by
  rw [List.getD_eq_getElem _ _ h]
  exact List.getElem_mem h

theorem grpCore_spec (r : Nat → Nat) (L : Nat) (hL : 8 ≤ L) :
    8 ≤ (shuffleL (fun i => r (L + i))
        ([ charsetLower.getD (r 0 % 26) 'a', charsetUpper.getD (r 1 % 26) 'a',
           charsetNumber.getD (r 2 % 10) 'a', charsetSpecial.getD (r 3 % 26) 'a' ] ++
          (List.range (L - 4)).map
            (fun i => (charsetLower ++ charsetUpper ++ charsetNumber ++ charsetSpecial).getD
              (r (4 + i) % 88) 'a'))).length ∧
      (∃ c ∈ shuffleL (fun i => r (L + i))
        ([ charsetLower.getD (r 0 % 26) 'a', charsetUpper.getD (r 1 % 26) 'a',
           charsetNumber.getD (r 2 % 10) 'a', charsetSpecial.getD (r 3 % 26) 'a' ] ++
          (List.range (L - 4)).map
            (fun i => (charsetLower ++ charsetUpper ++ charsetNumber ++ charsetSpecial).getD
              (r (4 + i) % 88) 'a')), isLowerChar c = true) ∧
      (∃ c ∈ shuffleL (fun i => r (L + i))
        ([ charsetLower.getD (r 0 % 26) 'a', charsetUpper.getD (r 1 % 26) 'a',
           charsetNumber.getD (r 2 % 10) 'a', charsetSpecial.getD (r 3 % 26) 'a' ] ++
          (List.range (L - 4)).map
            (fun i => (charsetLower ++ charsetUpper ++ charsetNumber ++ charsetSpecial).getD
              (r (4 + i) % 88) 'a')), isUpperChar c = true) ∧
      (∃ c ∈ shuffleL (fun i => r (L + i))
        ([ charsetLower.getD (r 0 % 26) 'a', charsetUpper.getD (r 1 % 26) 'a',
           charsetNumber.getD (r 2 % 10) 'a', charsetSpecial.getD (r 3 % 26) 'a' ] ++
          (List.range (L - 4)).map
            (fun i => (charsetLower ++ charsetUpper ++ charsetNumber ++ charsetSpecial).getD
              (r (4 + i) % 88) 'a')), isDigitChar c = true) ∧
      (∃ c ∈ shuffleL (fun i => r (L + i))
        ([ charsetLower.getD (r 0 % 26) 'a', charsetUpper.getD (r 1 % 26) 'a',
           charsetNumber.getD (r 2 % 10) 'a', charsetSpecial.getD (r 3 % 26) 'a' ] ++
          (List.range (L - 4)).map
            (fun i => (charsetLower ++ charsetUpper ++ charsetNumber ++ charsetSpecial).getD
              (r (4 + i) % 88) 'a')), isSymbolChar c = true) := by
  have hmemL : charsetLower.getD (r 0 % 26) 'a' ∈ charsetLower :=
    getD_mem_of_lt (by have := Nat.mod_lt (r 0) (y := 26) (by omega); simpa [charsetLower]) 'a'
  have hmemU : charsetUpper.getD (r 1 % 26) 'a' ∈ charsetUpper :=
    getD_mem_of_lt (by have := Nat.mod_lt (r 1) (y := 26) (by omega); simpa [charsetUpper]) 'a'
  have hmemN : charsetNumber.getD (r 2 % 10) 'a' ∈ charsetNumber :=
    getD_mem_of_lt (by have := Nat.mod_lt (r 2) (y := 10) (by omega); simpa [charsetNumber]) 'a'
  have hmemS : charsetSpecial.getD (r 3 % 26) 'a' ∈ charsetSpecial :=
    getD_mem_of_lt (by have := Nat.mod_lt (r 3) (y := 26) (by omega); simpa [charsetSpecial]) 'a'
  refine ⟨?_, ?_, ?_, ?_, ?_⟩
  · rw [shuffleL_length]
    simp only [List.length_append, List.length_map, List.length_range]
    simp only [List.length_cons, List.length_nil]
    omega
  · exact ⟨_, shuffleL_mem _ (List.mem_append_left _ (by simp)),
      charsetLower_class _ hmemL⟩
  · exact ⟨_, shuffleL_mem _ (List.mem_append_left _ (by simp)),
      charsetUpper_class _ hmemU⟩
  · exact ⟨_, shuffleL_mem _ (List.mem_append_left _ (by simp)),
      charsetNumber_class _ hmemN⟩
  · exact ⟨_, shuffleL_mem _ (List.mem_append_left _ (by simp)),
      charsetSpecial_class _ hmemS⟩

/-- C6.  For every requested length and every random oracle,
`GenerateRandomPassword` yields a password of length at least 8 containing at
least one lowercase letter, one uppercase letter, one digit and one symbol
character. -/
theorem generateRandomPassword_policy (r : Nat → Nat) (length : Nat) :
    8 ≤ (GenerateRandomPassword r length).length ∧
      (∃ c ∈ (GenerateRandomPassword r length).data, isLowerChar c = true) ∧
      (∃ c ∈ (GenerateRandomPassword r length).data, isUpperChar c = true) ∧
      (∃ c ∈ (GenerateRandomPassword r length).data, isDigitChar c = true) ∧
      (∃ c ∈ (GenerateRandomPassword r length).data, isSymbolChar c = true) := by
  have hstr : (GenerateRandomPassword r length).data = generateRandomPasswordL r length := rfl
  have hlen : (GenerateRandomPassword r length).length =
      (generateRandomPasswordL r length).length := rfl
  rw [hstr, hlen]
  unfold generateRandomPasswordL
  by_cases h8 : length < 8
  · rw [if_pos h8]
    exact grpCore_spec r 8 (by omega)
  · rw [if_neg h8]
    exact grpCore_spec r length (by omega)

/-! ## ERPNext client pagination (server/erpnext/client.go:105-181)

The remote employee directory is modelled as the ordered list `remote` of its
records; the page request `limit_start = s, limit_page_length = n` of a remote
that returns records in order yields `(remote.drop s).take n`.  The loop
returns the accumulated records together with the list of page sizes fetched
(one entry per HTTP request, in order). -/

/-- `pageSize := 200` (client.go:107). -/
def erpPageSize : Nat := 200

/-- `maxPages := 20` (client.go:109). -/
def erpMaxPages : Nat := 20

/-- The `for page := 0; page < maxPages; page++` loop of `GetEmployees`
(client.go:113-177).  `fuel` counts the remaining loop iterations, `startIdx`
mirrors the Go variable; returns (all accumulated employees, sizes of the
fetched pages). -/
def getEmployeesLoop (remote : List Nat) : Nat → Nat → List Nat → List Nat →
    List Nat × List Nat
  | 0, _, acc, pages => (acc, pages)
  | fuel + 1, startIdx, acc, pages =>
    let page := (remote.drop startIdx).take erpPageSize
    let acc := acc ++ page
    let pages := pages ++ [page.length]
    if page.length < erpPageSize then (acc, pages)
    else getEmployeesLoop remote fuel (startIdx + erpPageSize) acc pages

/-- `GetEmployees` (client.go:105-181): record ids collected and page-fetch
sizes. (Records are represented by their positions; only cardinalities and
order matter for the pagination claims.) -/
def getEmployees (remote : List Nat) : List Nat × List Nat :=
  getEmployeesLoop remote erpMaxPages 0 [] []

/-- The main pagination invariant: if the tail of the remote past `startIdx`
holds `q·pageSize + rem` records with `rem < pageSize` and the loop has more
than `q` iterations of fuel left, it fetches exactly `q+1` further pages, the
last one of size `rem`, and returns everything. -/
theorem getEmployeesLoop_spec (remote : List Nat) :
    ∀ (q : Nat) (fuel startIdx : Nat) (acc pages : List Nat) (rem : Nat),
      remote.length - startIdx = q * erpPageSize + rem → rem < erpPageSize →
      q < fuel →
      getEmployeesLoop remote fuel startIdx acc pages =
        (acc ++ remote.drop startIdx,
          pages ++ (List.replicate q erpPageSize ++ [rem])) := by
  have hE : erpPageSize = 200 := rfl
  intro q
  induction q with
  | zero =>
    intro fuel startIdx acc pages rem hlen hrem hfuel
    cases fuel with
    | zero => omega
    | succ f =>
      rw [getEmployeesLoop]
      have hdlen : (remote.drop startIdx).length = rem := by
        rw [List.length_drop]; omega
      have htake : (remote.drop startIdx).take erpPageSize = remote.drop startIdx :=
        List.take_of_length_le (by omega)
      rw [htake]
      rw [if_pos (by omega)]
      simp only [List.replicate_zero, List.nil_append]
      rw [hdlen]
  | succ p ih =>
    intro fuel startIdx acc pages rem hlen hrem hfuel
    cases fuel with
    | zero => omega
    | succ f =>
      rw [getEmployeesLoop]
      have hdlen : (remote.drop startIdx).length = (p + 1) * erpPageSize + rem := by
        rw [List.length_drop]; omega
      have hplen : ((remote.drop startIdx).take erpPageSize).length = erpPageSize := by
        rw [List.length_take, hdlen, hE]
        have : (p + 1) * 200 = p * 200 + 200 := by ring
        omega
      rw [if_neg (by omega)]
      have hmul : (p + 1) * erpPageSize = p * erpPageSize + erpPageSize := by ring
      have hnext : remote.length - (startIdx + erpPageSize) = p * erpPageSize + rem := by
        rw [hE] at hlen hmul ⊢
        omega
      rw [ih f (startIdx + erpPageSize) _ _ rem hnext hrem (by omega)]
      have hsplit : (remote.drop startIdx).take erpPageSize ++
          remote.drop (startIdx + erpPageSize) = remote.drop startIdx := by
        have h := List.take_append_drop erpPageSize (remote.drop startIdx)
        rw [List.drop_drop] at h
        exact h
      rw [List.append_assoc, hsplit, hplen]
      rw [List.replicate_succ]
      simp

/-- When every remaining iteration sees a full page (at least
`fuel · pageSize` records remain), the loop burns all its fuel, fetching
exactly `fuel` full pages. -/
theorem getEmployeesLoop_capped (remote : List Nat) :
    ∀ (fuel startIdx : Nat) (acc pages : List Nat),
      fuel * erpPageSize ≤ remote.length - startIdx →
      (getEmployeesLoop remote fuel startIdx acc pages).2 =
        pages ++ List.replicate fuel erpPageSize := by
  have hE : erpPageSize = 200 := rfl
  intro fuel
  induction fuel with
  | zero => intro startIdx acc pages _; simp [getEmployeesLoop]
  | succ f ih =>
    intro startIdx acc pages hlen
    rw [getEmployeesLoop]
    have hmul : (f + 1) * erpPageSize = f * erpPageSize + erpPageSize := by ring
    have hdlen : erpPageSize ≤ (remote.drop startIdx).length := by
      rw [List.length_drop]
      rw [hE] at hlen hmul ⊢
      omega
    have hplen : ((remote.drop startIdx).take erpPageSize).length = erpPageSize := by
      rw [List.length_take]; omega
    rw [if_neg (by omega)]
    have hnext : f * erpPageSize ≤ remote.length - (startIdx + erpPageSize) := by
      rw [hE] at hlen hmul ⊢
      omega
    rw [ih (startIdx + erpPageSize) _ _ hnext, hplen]
    rw [List.replicate_succ]
    simp

/-- C3 (amended).  For a remote directory of exactly `k × pageSize` records
with `k ≤ 19` (so that `k+1` fetches fit under the 20-page ceiling of
client.go:109), enumeration performs exactly `k+1` page fetches, the final
fetch returning zero records, and returns all records; for `k × pageSize − 1`
records with `1 ≤ k ≤ 20` it performs exactly `k` fetches, the last one short
(`pageSize − 1` records), and returns all records.  Beyond the ceiling the
loop truncates at 20 fetches (see the counterexample). -/
theorem getEmployees_pagination :
    (∀ (remote : List Nat) (k : Nat), remote.length = k * erpPageSize → k ≤ 19 →
      (getEmployees remote).1 = remote ∧
        (getEmployees remote).2.length = k + 1 ∧
        (getEmployees remote).2.getLast? = some 0) ∧
    (∀ (remote : List Nat) (k : Nat), 1 ≤ k → remote.length = k * erpPageSize - 1 →
      k ≤ 20 →
      (getEmployees remote).1 = remote ∧
        (getEmployees remote).2.length = k ∧
        (getEmployees remote).2.getLast? = some (erpPageSize - 1)) := by
  have hE : erpPageSize = 200 := rfl
  constructor
  · intro remote k hlen hk
    have h := getEmployeesLoop_spec remote k erpMaxPages 0 [] [] 0
      (by rw [hE] at hlen ⊢; omega) (by omega)
      (by show k < erpMaxPages; unfold erpMaxPages; omega)
    unfold getEmployees
    rw [h]
    refine ⟨by simp, by simp, ?_⟩
    simp [List.getLast?_concat]
  · intro remote k hk1 hlen hk
    have harith : remote.length - 0 = (k - 1) * erpPageSize + (erpPageSize - 1) := by
      rw [hE] at hlen ⊢
      omega
    have h := getEmployeesLoop_spec remote (k - 1) erpMaxPages 0 [] [] (erpPageSize - 1)
      harith (by omega)
      (by show k - 1 < erpMaxPages; unfold erpMaxPages; omega)
    unfold getEmployees
    rw [h]
    refine ⟨by simp, ?_, ?_⟩
    · simp only [List.nil_append, List.length_append, List.length_replicate,
        List.length_cons, List.length_nil]
      omega
    · simp [List.getLast?_concat]

/-- C3 counterexample.  A remote directory of exactly `20 × pageSize = 4000`
records (`k = 20`): the claim requires `k + 1 = 21` page fetches with a final
empty fetch, but the 20-page safety ceiling makes `GetEmployees` stop after
exactly 20 fetches (all full), never observing the end-of-data signal. -/
theorem getEmployees_pagination_counterexample :
    (List.range 4000).length = 20 * erpPageSize ∧
      (getEmployees (List.range 4000)).2.length = 20 ∧
      (getEmployees (List.range 4000)).2.length ≠ 20 + 1 := by
  have h := getEmployeesLoop_capped (List.range 4000) 20 0 [] []
    (by simp [erpPageSize])
  have h2 : (getEmployees (List.range 4000)).2 = List.replicate 20 erpPageSize := by
    unfold getEmployees erpMaxPages
    rw [h]
    simp
  refine ⟨by simp [erpPageSize], ?_, ?_⟩
  · rw [h2]; simp
  · rw [h2]; simp

/-- Witness for C3 at `k = 2`: a 400-record directory takes 3 fetches ending
in an empty page; a 399-record directory takes 2 fetches ending in a short
page. -/
theorem getEmployees_pagination_witness :
    ((getEmployees (List.range 400)).1 = List.range 400 ∧
      (getEmployees (List.range 400)).2.length = 3 ∧
      (getEmployees (List.range 400)).2.getLast? = some 0) ∧
    ((getEmployees (List.range 399)).1 = List.range 399 ∧
      (getEmployees (List.range 399)).2.length = 2 ∧
      (getEmployees (List.range 399)).2.getLast? = some (erpPageSize - 1)) := by
  constructor
  · exact getEmployees_pagination.1 (List.range 400) 2 (by simp [erpPageSize]) (by omega)
  · exact getEmployees_pagination.2 (List.range 399) 2 (by omega)
      (by simp [erpPageSize]) (by omega)

/-! ## The SyncEmployees run (server/api.go:422-718)

The chat (Mattermost) directory is modelled as a concrete list of accounts;
the plugin-API lookups `GetUser` / `GetUserByEmail` / `GetUserByUsername` /
`SearchUsers` are the corresponding pure queries on that list (an API error
for a missing record and a genuine miss are handled identically by the code at
every one of these call sites, so both are one `none`/`isSome = false`).  The
fallible remote writes (`UpdateEmployee`, `CreateUser`) and `SendMail` are
driven by call-indexed oracles, and created accounts get ids from an oracle
`idGen`, so one run definition covers every sequence of remote outcomes. -/

structure MMUser where
  id : String
  email : String
  username : String
  firstName : String
  lastName : String
  deleteAt : Nat
  isBot : Bool
deriving DecidableEq

/-- The ERPNext `Employee` record (client.go:47-57). -/
structure Employee where
  name : String
  companyEmail : String
  firstName : String
  lastName : String
  gender : String
  dateOfBirth : String
  dateOfJoining : String
  status : String
  customChatID : String
deriving DecidableEq

/-- `p.API.GetUser` on the modelled directory: first account with this id. -/
def findById (mm : List MMUser) (id : String) : Option MMUser :=
  mm.find? (fun u => u.id == id)

/-- `p.API.GetUserByEmail`: first account with this email. -/
def findByEmailMM (mm : List MMUser) (e : String) : Option MMUser :=
  mm.find? (fun u => u.email == e)

/-- `p.API.GetUserByUsername`. -/
def findByUsername (mm : List MMUser) (un : String) : Option MMUser :=
  mm.find? (fun u => u.username == un)

/-- `p.API.SearchUsers` with `AllowInactive: false`: the live accounts whose
record matches the search term, term semantics given by the oracle `tm`. -/
def searchUsersMM (tm : String → MMUser → Bool) (mm : List MMUser)
    (term : String) : List MMUser :=
  mm.filter (fun u => u.deleteAt == 0 && tm term u)

/-- `strings.EqualFold`, modelled as ASCII-case-insensitive equality (the
claims do not depend on its exact fold). -/
def eqFold (a b : String) : Bool :=
  a.data.map Char.toLower == b.data.map Char.toLower

/-- The scan over search results (api.go:573-579): first result with a
case-insensitively equal email that is not deleted. -/
def pickSearchMatch (email : String) (l : List MMUser) : Option MMUser :=
  l.find? (fun u => eqFold u.email email && u.deleteAt == 0)

/-- Does the char list start with `sub`? -/
def startsWithL (sub : List Char) : List Char → Bool :=
  fun l =>
    match sub, l with
    | [], _ => true
    | _ :: _, [] => false
    | a :: as, b :: bs => a == b && startsWithL as bs

/-- Does the char list contain `sub` as a contiguous substring? -/
def containsL (sub : List Char) : List Char → Bool
  | [] => startsWithL sub []
  | c :: rest => startsWithL sub (c :: rest) || containsL sub rest

/-- `strings.Contains` (used at api.go:645 to classify a create error as a
username conflict). -/
def goStringContains (s sub : String) : Bool :=
  containsL sub.data s.data

/-- One result line of the `SyncEmployees` audit trail, one constructor per
`fmt.Sprintf` format in api.go (arguments in source order). -/
inductive ELine
  | skippedNoEmail (first last name : String)
  | skippedInactive (first last name : String)
  | alreadyMapped (first last email : String)
  | updateFailed (first last email msg : String)
  | mappedExisting (first last email : String)
  | createFailed (first last email msg : String)
  | createFailedRetry (first last email msg : String)
  | createdUpdateFailed (first last email msg : String)
  | createdLine (first last email : String) (emailSent : Bool) (username password : String)
  | timeoutLine (n : Nat)
deriving DecidableEq

/-- A successful `UpdateEmployee` write of the cross-reference field:
employee `empName`'s `custom_chat_id` set to `newId`, overwriting `oldId`;
`expectedEmail` is that employee's company email at the time of the write. -/
structure UpdOp where
  empName : String
  newId : String
  oldId : String
  expectedEmail : String
deriving DecidableEq

/-- The chat-directory API calls a record's processing may issue. -/
inductive ECall
  | getUser (id : String)
  | getUserByEmail (email : String)
  | searchUsers (term : String)
  | getUserByUsername (u : String)
  | createUser (username : String)
  | updateEmployee (name : String)
  | sendMail (email : String)
deriving DecidableEq

/-- Is the call a lookup-by-email (`GetUserByEmail` or `SearchUsers`)? -/
def isEmailLookup : ECall → Bool
  | ECall.getUserByEmail _ => true
  | ECall.searchUsers _ => true
  | _ => false

def isCreateCall : ECall → Bool
  | ECall.createUser _ => true
  | _ => false

/-- Environment of one `SyncEmployees` run: the oracles for fallible remote
writes (indexed by how many calls of that kind the run has already made),
id assignment for created accounts, the random streams behind
`GenerateUsername`/`GenerateRandomPassword`, the `time.Now().Unix()` token of
the collision retry, search-term semantics, and the per-record deadline test
`timeoutAt i` (`time.Since(startTime) > maxDuration` before record `i`). -/
structure EmpEnv where
  updErr : Nat → Option String
  createErr : Nat → Option String
  mailOk : Nat → Bool
  idGen : Nat → String
  lower : Char → Char
  unameRand : Nat → Nat → Nat → Nat → Nat
  pwdRand : Nat → Nat → Nat
  tsTok : Nat → Nat
  termMatch : String → MMUser → Bool
  timeoutAt : Nat → Bool

structure EmpState where
  mm : List MMUser
  updCnt : Nat
  createCnt : Nat
  mailCnt : Nat
  idCnt : Nat
deriving DecidableEq

/-- What one record's processing produced: its audit line, its increments of
the four counters, the successful cross-reference writes, the chat-API calls
issued, and the record as the ERP directory holds it afterwards. -/
structure StepOut where
  line : ELine
  dm : Nat
  du : Nat
  dc : Nat
  ds : Nat
  ops : List UpdOp
  calls : List ECall
  emp : Employee
deriving DecidableEq

/-- The username-availability loop (api.go:614-622): up to 5 rounds of
`GetUserByUsername`; a miss breaks keeping the candidate, a hit regenerates
with the suffix `_retries+1`.  `gen g` is the `g`-th `GenerateUsername` call
of this record. -/
def chooseUA (gen : Nat → String) (mm : List MMUser) :
    Nat → Nat → String → String × List ECall
  | 0, _, u => (u, [])
  | fuel + 1, rts, u =>
    if (findByUsername mm u).isSome then
      let next := chooseUA gen mm fuel (rts + 1) (gen (rts + 1) ++ "_" ++ toString (rts + 1))
      (next.1, ECall.getUserByUsername u :: next.2)
    else (u, [ECall.getUserByUsername u])

def chooseUsername (gen : Nat → String) (mm : List MMUser) : String × List ECall :=
  chooseUA gen mm 5 0 (gen 0)

/-- Success tail of the create path (api.go:637-697): the account exists (in
`st.mm`), then `UpdateEmployee` writes the cross-reference (on failure the
record line reports it and no counter moves, api.go:671-680), then best-effort
credential mail; outcome Created. -/
def mkCreatedUser (env : EmpEnv) (st : EmpState) (e : Employee)
    (uname : String) : MMUser :=
  { id := env.idGen st.idCnt, email := e.companyEmail, username := uname,
    firstName := e.firstName, lastName := e.lastName, deleteAt := 0, isBot := false }

def createdOk (env : EmpEnv) (st : EmpState) (e : Employee) (uname pwd : String)
    (calls : List ECall) (newCreateCnt : Nat) : StepOut × EmpState :=
  match env.updErr st.updCnt with
  | some msg =>
    ({ line := ELine.createdUpdateFailed e.firstName e.lastName e.companyEmail msg,
       dm := 0, du := 0, dc := 0, ds := 0, ops := [],
       calls := calls ++ [ECall.updateEmployee e.name], emp := e },
      { mm := st.mm ++ [mkCreatedUser env st e uname], updCnt := st.updCnt + 1,
        createCnt := newCreateCnt, mailCnt := st.mailCnt, idCnt := st.idCnt + 1 })
  | none =>
    ({ line := ELine.createdLine e.firstName e.lastName e.companyEmail
         (env.mailOk st.mailCnt) uname pwd,
       dm := 0, du := 0, dc := 1, ds := 0,
       ops := [⟨e.name, (mkCreatedUser env st e uname).id, e.customChatID,
         e.companyEmail⟩],
       calls := calls ++ [ECall.updateEmployee e.name, ECall.sendMail e.companyEmail],
       emp := { e with customChatID := (mkCreatedUser env st e uname).id } },
      { mm := st.mm ++ [mkCreatedUser env st e uname], updCnt := st.updCnt + 1,
        createCnt := newCreateCnt, mailCnt := st.mailCnt + 1, idCnt := st.idCnt + 1 })

/-- Create path (api.go:604-698): synthesize username and password, attempt
`CreateUser`; on a `username` error retry exactly once with the
timestamp-derived suffix (api.go:644-662); other errors and a failed retry are
per-record failures. -/
def createPath (env : EmpEnv) (k : Nat) (st : EmpState) (e : Employee)
    (pre : List ECall) : StepOut × EmpState :=
  let gen : Nat → String :=
    fun g => GenerateUsername env.lower (env.unameRand k g) e.firstName e.lastName
  let chosen := chooseUsername gen st.mm
  let uname := chosen.1
  let pwd := GenerateRandomPassword (env.pwdRand k) 12
  match env.createErr st.createCnt with
  | none =>
    createdOk env st e uname pwd (pre ++ chosen.2 ++ [ECall.createUser uname])
      (st.createCnt + 1)
  | some msg =>
    if goStringContains msg "username" then
      let uname2 := uname ++ "_" ++ toString (env.tsTok k % 10000)
      match env.createErr (st.createCnt + 1) with
      | none =>
        createdOk env { st with createCnt := st.createCnt + 1 } e uname2 pwd
          (pre ++ chosen.2 ++ [ECall.createUser uname, ECall.createUser uname2])
          (st.createCnt + 2)
      | some msg2 =>
        ({ line := ELine.createFailedRetry e.firstName e.lastName e.companyEmail msg2,
           dm := 0, du := 0, dc := 0, ds := 0, ops := [],
           calls := pre ++ chosen.2 ++ [ECall.createUser uname, ECall.createUser uname2],
           emp := e },
          { st with createCnt := st.createCnt + 2 })
    else
      ({ line := ELine.createFailed e.firstName e.lastName e.companyEmail msg,
         dm := 0, du := 0, dc := 0, ds := 0, ops := [],
         calls := pre ++ chosen.2 ++ [ECall.createUser uname], emp := e },
        { st with createCnt := st.createCnt + 1 })

/-- Link-to-existing path (api.go:584-603): write the cross-reference to the
live account `u`; on failure the record line reports it. -/
def updatePath (env : EmpEnv) (st : EmpState) (e : Employee) (u : MMUser)
    (pre : List ECall) : StepOut × EmpState :=
  match env.updErr st.updCnt with
  | some msg =>
    ({ line := ELine.updateFailed e.firstName e.lastName e.companyEmail msg,
       dm := 0, du := 0, dc := 0, ds := 0, ops := [],
       calls := pre ++ [ECall.updateEmployee e.name], emp := e },
      { st with updCnt := st.updCnt + 1 })
  | none =>
    ({ line := ELine.mappedExisting e.firstName e.lastName e.companyEmail,
       dm := 0, du := 1, dc := 0, ds := 0,
       ops := [⟨e.name, u.id, e.customChatID, e.companyEmail⟩],
       calls := pre ++ [ECall.updateEmployee e.name],
       emp := { e with customChatID := u.id } },
      { st with updCnt := st.updCnt + 1 })

/-- Re-discovery (api.go:551-581): `GetUserByEmail` first; on a miss (or API
error) fall back once to `SearchUsers` and accept only a live,
case-insensitively equal match; then branch on whether a live account was
found (api.go:584). -/
def processLookup (env : EmpEnv) (k : Nat) (st : EmpState) (e : Employee)
    (pre : List ECall) : StepOut × EmpState :=
  match findByEmailMM st.mm e.companyEmail with
  | some u =>
    if u.deleteAt == 0 then
      updatePath env st e u (pre ++ [ECall.getUserByEmail e.companyEmail])
    else
      createPath env k st e (pre ++ [ECall.getUserByEmail e.companyEmail])
  | none =>
    match pickSearchMatch e.companyEmail
        (searchUsersMM env.termMatch st.mm e.companyEmail) with
    | some u =>
      updatePath env st e u (pre ++ [ECall.getUserByEmail e.companyEmail,
        ECall.searchUsers e.companyEmail])
    | none =>
      createPath env k st e (pre ++ [ECall.getUserByEmail e.companyEmail,
        ECall.searchUsers e.companyEmail])

/-- Process one employee (the body of the loop at api.go:498-698, after the
timeout check): empty-email and not-Active records are skipped; a non-empty
cross-reference is re-validated with `GetUser` and short-circuits to
AlreadyLinked when the account is live; otherwise re-discovery and
create/link. -/
def processEmployee (env : EmpEnv) (k : Nat) (st : EmpState) (e : Employee) :
    StepOut × EmpState :=
  if e.companyEmail == "" then
    ({ line := ELine.skippedNoEmail e.firstName e.lastName e.name,
       dm := 0, du := 0, dc := 0, ds := 1, ops := [], calls := [], emp := e }, st)
  else if e.status != "Active" then
    ({ line := ELine.skippedInactive e.firstName e.lastName e.name,
       dm := 0, du := 0, dc := 0, ds := 1, ops := [], calls := [], emp := e }, st)
  else if e.customChatID != "" then
    match findById st.mm e.customChatID with
    | some u =>
      if u.deleteAt == 0 then
        ({ line := ELine.alreadyMapped e.firstName e.lastName e.companyEmail,
           dm := 1, du := 0, dc := 0, ds := 0, ops := [],
           calls := [ECall.getUser e.customChatID], emp := e }, st)
      else
        processLookup env k st e [ECall.getUser e.customChatID]
    | none => processLookup env k st e [ECall.getUser e.customChatID]
  else
    processLookup env k st e []

/-- The per-run `SyncResult` of `SyncEmployees` (api.go:482-491); the audit
lines are kept as their structured form.  (`ProcessingTime` is wall-clock
formatting and is not modelled.) -/
structure SyncResult where
  matchedCount : Nat
  updatedCount : Nat
  createdCount : Nat
  skippedCount : Nat
  userResults : List ELine
  totalProcessed : Nat
  timedOut : Bool
deriving DecidableEq

/-- The record loop (api.go:498-699): before each record the deadline is
checked; on expiry the loop stops.  Returns the step results of the processed
records, the timeout index (if any), and the final state. -/
def syncEmpLoop (env : EmpEnv) : List Employee → Nat → EmpState →
    List StepOut × Option Nat × EmpState
  | [], _, st => ([], none, st)
  | e :: rest, i, st =>
    if env.timeoutAt i then ([], some i, st)
    else
      let p := processEmployee env i st e
      let nxt := syncEmpLoop env rest (i + 1) p.2
      (p.1 :: nxt.1, nxt.2.1, nxt.2.2)

def sumDm (outs : List StepOut) : Nat := (outs.map (fun o => o.dm)).sum

def sumDu (outs : List StepOut) : Nat := (outs.map (fun o => o.du)).sum

def sumDc (outs : List StepOut) : Nat := (outs.map (fun o => o.dc)).sum

def sumDs (outs : List StepOut) : Nat := (outs.map (fun o => o.ds)).sum

/-- Everything a `SyncEmployees` run produces: the returned `SyncResult`
(counters accumulated per record, `TotalProcessed` set at api.go:702 as the
sum of the four counters, the timeout line appended at api.go:502-504), plus
— for stating the invariants — the ERP directory as left by the run, the chat
directory as left by the run, all successful cross-reference writes, and the
chat-API calls of each processed record. -/
structure EmpRunOut where
  res : SyncResult
  empsOut : List Employee
  mmOut : List MMUser
  ops : List UpdOp
  recCalls : List (List ECall)
deriving DecidableEq

def empInitState (mm0 : List MMUser) : EmpState :=
  { mm := mm0, updCnt := 0, createCnt := 0, mailCnt := 0, idCnt := 0 }

def mkEmpRunOut (emps : List Employee)
    (l : List StepOut × Option Nat × EmpState) : EmpRunOut :=
  { res :=
      { matchedCount := sumDm l.1, updatedCount := sumDu l.1,
        createdCount := sumDc l.1, skippedCount := sumDs l.1,
        userResults := l.1.map (fun o => o.line) ++
          (match l.2.1 with | some n => [ELine.timeoutLine n] | none => []),
        totalProcessed := sumDm l.1 + sumDu l.1 + sumDc l.1 + sumDs l.1,
        timedOut := l.2.1.isSome },
    empsOut := l.1.map (fun o => o.emp) ++ emps.drop l.1.length,
    mmOut := l.2.2.mm,
    ops := (l.1.map (fun o => o.ops)).flatten,
    recCalls := l.1.map (fun o => o.calls) }

def syncEmployees (env : EmpEnv) (emps : List Employee) (mm0 : List MMUser) :
    EmpRunOut :=
  mkEmpRunOut emps (syncEmpLoop env emps 0 (empInitState mm0))

/-- Why a run aborted before processing any record. -/
inductive AbortReason
  | fieldCheck (msg : String)
  | fieldCreate (msg : String)
  | roleCheck (msg : String)
  | roleCreate (msg : String)
  | fetch (msg : String)
deriving DecidableEq

/-- The full `SyncEmployees` endpoint (api.go:422-718): ensure the
`custom_chat_id` custom field exists (abort on check or create failure,
api.go:439-462), fetch the employees (abort on failure, api.go:471-476), then
run the record loop.  `fieldCheck`/`fieldCreate`/`fetch` are the outcomes of
those three remote interactions. -/
def syncEmployeesFull (fieldCheck : Except String Bool)
    (fieldCreate : Except String Unit)
    (fetch : Except String (List Employee))
    (env : EmpEnv) (mm0 : List MMUser) : Except AbortReason EmpRunOut :=
  match fieldCheck with
  | Except.error msg => Except.error (AbortReason.fieldCheck msg)
  | Except.ok ex =>
    match (if ex then Except.ok () else fieldCreate) with
    | Except.error msg => Except.error (AbortReason.fieldCreate msg)
    | Except.ok _ =>
      match fetch with
      | Except.error msg => Except.error (AbortReason.fetch msg)
      | Except.ok emps => Except.ok (syncEmployees env emps mm0)

/-! ### Per-record facts about `processEmployee` -/

/-- Does the id resolve, on the modelled chat directory, to a live
(not soft-deleted) account?  This is the re-validation of api.go:536-537. -/
def resolvesLive (mm : List MMUser) (id : String) : Bool :=
  match findById mm id with
  | some u => u.deleteAt == 0
  | none => false

theorem resolvesLive_append (mm t : List MMUser) (id : String)
    (h : resolvesLive mm id = true) : resolvesLive (mm ++ t) id = true := by
  unfold resolvesLive findById at h ⊢
  cases hf : mm.find? (fun u => u.id == id) with
  | none => rw [hf] at h; simp at h
  | some u =>
    rw [hf] at h
    rw [List.find?_append, hf]
    simpa using h

theorem updatePath_mm (env : EmpEnv) (st : EmpState) (e : Employee) (u : MMUser)
    (pre : List ECall) : (updatePath env st e u pre).2.mm = st.mm := by
  cases h : env.updErr st.updCnt <;> simp [updatePath, h]

theorem createdOk_mm (env : EmpEnv) (st : EmpState) (e : Employee)
    (uname pwd : String) (calls : List ECall) (ncc : Nat) :
    (createdOk env st e uname pwd calls ncc).2.mm =
      st.mm ++ [mkCreatedUser env st e uname] := by
  unfold createdOk
  cases h : env.updErr (st.updCnt) <;> simp [h]

theorem createPath_mm (env : EmpEnv) (k : Nat) (st : EmpState) (e : Employee)
    (pre : List ECall) :
    ∃ t, (createPath env k st e pre).2.mm = st.mm ++ t := by
  unfold createPath
  cases h1 : env.createErr st.createCnt with
  | none => exact ⟨_, createdOk_mm env st e _ _ _ _⟩
  | some msg =>
    by_cases hm : goStringContains msg "username" = true
    · simp only [h1, hm, if_pos]
      cases h2 : env.createErr (st.createCnt + 1) with
      | none => exact ⟨_, createdOk_mm env { st with createCnt := st.createCnt + 1 } e _ _ _ _⟩
      | some msg2 => exact ⟨[], by simp⟩
    · simp only [h1, hm, if_neg, Bool.false_eq_true, not_false_iff]
      exact ⟨[], by simp⟩

theorem processLookup_mm (env : EmpEnv) (k : Nat) (st : EmpState) (e : Employee)
    (pre : List ECall) :
    ∃ t, (processLookup env k st e pre).2.mm = st.mm ++ t := by
  unfold processLookup
  cases h1 : findByEmailMM st.mm e.companyEmail with
  | some u =>
    by_cases hd : (u.deleteAt == 0) = true
    · simp only [hd, if_pos]
      exact ⟨[], by rw [updatePath_mm]; simp⟩
    · simp only [hd, if_neg, Bool.false_eq_true, not_false_iff]
      exact createPath_mm env k st e _
  | none =>
    cases h2 : pickSearchMatch e.companyEmail
        (searchUsersMM env.termMatch st.mm e.companyEmail) with
    | some u => exact ⟨[], by rw [updatePath_mm]; simp⟩
    | none => exact createPath_mm env k st e _

theorem processEmployee_mm (env : EmpEnv) (k : Nat) (st : EmpState) (e : Employee) :
    ∃ t, (processEmployee env k st e).2.mm = st.mm ++ t := by
  unfold processEmployee
  by_cases h1 : (e.companyEmail == "") = true
  · simp only [h1, if_pos]; exact ⟨[], by simp⟩
  · simp only [h1, if_neg, Bool.false_eq_true, not_false_iff]
    by_cases h2 : (e.status != "Active") = true
    · simp only [h2, if_pos]; exact ⟨[], by simp⟩
    · simp only [h2, if_neg, Bool.false_eq_true, not_false_iff]
      by_cases h3 : (e.customChatID != "") = true
      · simp only [h3, if_pos]
        cases h4 : findById st.mm e.customChatID with
        | some u =>
          by_cases h5 : (u.deleteAt == 0) = true
          · simp only [h5, if_pos]; exact ⟨[], by simp⟩
          · simp only [h5, if_neg, Bool.false_eq_true, not_false_iff]
            exact processLookup_mm env k st e _
        | none => exact processLookup_mm env k st e _
      · simp only [h3, if_neg, Bool.false_eq_true, not_false_iff]
        exact processLookup_mm env k st e _

/-- Short-circuit (api.go:534-543): a record whose cross-reference resolves
live is AlreadyLinked after the single `GetUser` call, the state untouched. -/
theorem processEmployee_matched (env : EmpEnv) (k : Nat) (st : EmpState)
    (e : Employee)
    (he : (e.companyEmail == "") = false)
    (hs : (e.status != "Active") = false)
    (hc : (e.customChatID != "") = true)
    (hr : resolvesLive st.mm e.customChatID = true) :
    processEmployee env k st e =
      ({ line := ELine.alreadyMapped e.firstName e.lastName e.companyEmail,
         dm := 1, du := 0, dc := 0, ds := 0, ops := [],
         calls := [ECall.getUser e.customChatID], emp := e }, st) := by
  unfold processEmployee
  simp only [he, Bool.false_eq_true, if_neg, not_false_iff, hs, hc, if_pos]
  unfold resolvesLive at hr
  cases hf : findById st.mm e.customChatID with
  | none => rw [hf] at hr; simp at hr
  | some u =>
    rw [hf] at hr
    have hr2 : (u.deleteAt == 0) = true := hr
    simp [hr2]

theorem updatePath_ops (env : EmpEnv) (st : EmpState) (e : Employee) (u : MMUser)
    (pre : List ECall) :
    ∀ op ∈ (updatePath env st e u pre).1.ops,
      op.oldId = e.customChatID ∧ op.empName = e.name := by
  intro op hop
  cases h : env.updErr st.updCnt <;> simp [updatePath, h] at hop
  subst hop
  exact ⟨rfl, rfl⟩

theorem createdOk_ops (env : EmpEnv) (st : EmpState) (e : Employee)
    (uname pwd : String) (calls : List ECall) (ncc : Nat) :
    ∀ op ∈ (createdOk env st e uname pwd calls ncc).1.ops,
      op.oldId = e.customChatID ∧ op.empName = e.name := by
  intro op hop
  unfold createdOk at hop
  cases h : env.updErr st.updCnt <;> simp [h] at hop
  subst hop
  exact ⟨rfl, rfl⟩

theorem createPath_ops (env : EmpEnv) (k : Nat) (st : EmpState) (e : Employee)
    (pre : List ECall) :
    ∀ op ∈ (createPath env k st e pre).1.ops,
      op.oldId = e.customChatID ∧ op.empName = e.name := by
  intro op hop
  unfold createPath at hop
  cases h1 : env.createErr st.createCnt with
  | none =>
    rw [h1] at hop
    exact createdOk_ops env st e _ _ _ _ op hop
  | some msg =>
    rw [h1] at hop
    by_cases hm : goStringContains msg "username" = true
    · simp only [hm, if_pos] at hop
      cases h2 : env.createErr (st.createCnt + 1) with
      | none =>
        rw [h2] at hop
        exact createdOk_ops env _ e _ _ _ _ op hop
      | some msg2 => rw [h2] at hop; simp at hop
    · simp only [hm, Bool.false_eq_true, if_neg, not_false_iff] at hop
      simp at hop

theorem processLookup_ops (env : EmpEnv) (k : Nat) (st : EmpState) (e : Employee)
    (pre : List ECall) :
    ∀ op ∈ (processLookup env k st e pre).1.ops,
      op.oldId = e.customChatID ∧ op.empName = e.name := by
  intro op hop
  unfold processLookup at hop
  cases h1 : findByEmailMM st.mm e.companyEmail with
  | some u =>
    rw [h1] at hop
    by_cases hd : (u.deleteAt == 0) = true
    · simp only [hd, if_pos] at hop
      exact updatePath_ops env st e u _ op hop
    · simp only [hd, Bool.false_eq_true, if_neg, not_false_iff] at hop
      exact createPath_ops env k st e _ op hop
  | none =>
    rw [h1] at hop
    cases h2 : pickSearchMatch e.companyEmail
        (searchUsersMM env.termMatch st.mm e.companyEmail) with
    | some u =>
      rw [h2] at hop
      exact updatePath_ops env st e u _ op hop
    | none =>
      rw [h2] at hop
      exact createPath_ops env k st e _ op hop

/-- Every successful cross-reference write of a record overwrites either an
empty cross-reference or one that does not resolve live at the record's
processing state. -/
theorem processEmployee_ops (env : EmpEnv) (k : Nat) (st : EmpState)
    (e : Employee) :
    ∀ op ∈ (processEmployee env k st e).1.ops,
      op.oldId ≠ "" → resolvesLive st.mm op.oldId = false := by
  intro op hop hold
  unfold processEmployee at hop
  by_cases h1 : (e.companyEmail == "") = true
  · simp only [h1, if_pos] at hop; simp at hop
  · simp only [h1, Bool.false_eq_true, if_neg, not_false_iff] at hop
    by_cases h2 : (e.status != "Active") = true
    · simp only [h2, if_pos] at hop; simp at hop
    · simp only [h2, Bool.false_eq_true, if_neg, not_false_iff] at hop
      by_cases h3 : (e.customChatID != "") = true
      · simp only [h3, if_pos] at hop
        cases h4 : findById st.mm e.customChatID with
        | some u =>
          rw [h4] at hop
          by_cases h5 : (u.deleteAt == 0) = true
          · simp only [h5, if_pos] at hop; simp at hop
          · simp only [h5, Bool.false_eq_true, if_neg, not_false_iff] at hop
            have hdesc := processLookup_ops env k st e _ op hop
            rw [hdesc.1, ]
            unfold resolvesLive
            rw [h4]
            simpa using h5
        | none =>
          rw [h4] at hop
          have hdesc := processLookup_ops env k st e _ op hop
          rw [hdesc.1]
          unfold resolvesLive
          rw [h4]
      · simp only [h3, Bool.false_eq_true, if_neg, not_false_iff] at hop
        have hdesc := processLookup_ops env k st e _ op hop
        rw [hdesc.1] at hold
        simp at h3
        exact absurd h3 hold

theorem syncEmpLoop_ops_resolve (env : EmpEnv) (mm0 : List MMUser) :
    ∀ (emps : List Employee) (i : Nat) (st : EmpState), (∃ t, st.mm = mm0 ++ t) →
      ∀ o ∈ (syncEmpLoop env emps i st).1, ∀ op ∈ o.ops,
        op.oldId ≠ "" → resolvesLive mm0 op.oldId = false := by
  intro emps
  induction emps with
  | nil => intro i st _ o ho; simp [syncEmpLoop] at ho
  | cons e rest ih =>
    intro i st hgrow o ho op hop hold
    rw [syncEmpLoop] at ho
    by_cases ht : env.timeoutAt i = true
    · simp [ht] at ho
    · simp only [ht, Bool.false_eq_true, if_neg, not_false_iff] at ho
      rcases List.mem_cons.1 ho with heq | hrest
      · subst heq
        cases hres : resolvesLive mm0 op.oldId with
        | false => rfl
        | true =>
          obtain ⟨t, hst⟩ := hgrow
          have hlive : resolvesLive st.mm op.oldId = true := by
            rw [hst]; exact resolvesLive_append _ _ _ hres
          have hfalse := processEmployee_ops env i st e op hop hold
          rw [hlive] at hfalse
          exact hfalse
      · obtain ⟨t, hst⟩ := hgrow
        obtain ⟨t2, hst2⟩ := processEmployee_mm env i st e
        refine ih (i + 1) (processEmployee env i st e).2 ⟨t ++ t2, ?_⟩ o hrest op hop hold
        rw [hst2, hst, List.append_assoc]

/-- Deadline truncation of the record loop: with the deadline first observed
expired before record `i0`, the loop processes exactly the records before `i0`
and reports the timeout index. -/
theorem syncEmpLoop_timeout (env : EmpEnv) (i0 : Nat)
    (hbefore : ∀ j, j < i0 → env.timeoutAt j = false)
    (hat : env.timeoutAt i0 = true) :
    ∀ (emps : List Employee) (i : Nat) (st : EmpState), i ≤ i0 →
      i0 - i < emps.length →
      (syncEmpLoop env emps i st).1.length = i0 - i ∧
        (syncEmpLoop env emps i st).2.1 = some i0 := by
  intro emps
  induction emps with
  | nil => intro i st hi hlen; simp at hlen
  | cons e rest ih =>
    intro i st hi hlen
    rw [syncEmpLoop]
    by_cases hii : i = i0
    · subst hii
      simp [hat]
    · have hlt : i < i0 := by omega
      have hf := hbefore i hlt
      simp only [hf, Bool.false_eq_true, if_neg, not_false_iff]
      have hlen2 : i0 - (i + 1) < rest.length := by
        simp only [List.length_cons] at hlen
        omega
      have hrec := ih (i + 1) (processEmployee env i st e).2 (by omega) hlen2
      refine ⟨?_, hrec.2⟩
      simp only [List.length_cons, hrec.1]
      omega

/-- When the deadline never fires, the loop processes every record. -/
theorem syncEmpLoop_noTimeout (env : EmpEnv)
    (hto : ∀ j, env.timeoutAt j = false) :
    ∀ (emps : List Employee) (i : Nat) (st : EmpState),
      (syncEmpLoop env emps i st).1.length = emps.length ∧
        (syncEmpLoop env emps i st).2.1 = none := by
  intro emps
  induction emps with
  | nil => intro i st; simp [syncEmpLoop]
  | cons e rest ih =>
    intro i st
    rw [syncEmpLoop]
    simp only [hto i, Bool.false_eq_true, if_neg, not_false_iff]
    have hrec := ih (i + 1) (processEmployee env i st e).2
    refine ⟨?_, hrec.2⟩
    simp only [List.length_cons, hrec.1]

/-- How many processed records a line stands for in `TotalProcessed`: skip,
AlreadyLinked, Linked and Created lines each moved one counter; failure lines
and the timeout line moved none. -/
def lineContrib : ELine → Nat
  | ELine.skippedNoEmail _ _ _ => 1
  | ELine.skippedInactive _ _ _ => 1
  | ELine.alreadyMapped _ _ _ => 1
  | ELine.mappedExisting _ _ _ => 1
  | ELine.createdLine _ _ _ _ _ _ => 1
  | _ => 0

/-- A per-record failure line of `SyncEmployees` (the record's processing
ended in a lookup/update/create error). -/
def isErrorLineE : ELine → Bool
  | ELine.updateFailed _ _ _ _ => true
  | ELine.createFailed _ _ _ _ => true
  | ELine.createFailedRetry _ _ _ _ => true
  | ELine.createdUpdateFailed _ _ _ _ => true
  | _ => false

/-- Invariants of every record's step output: the counter increments sum to
the line's contribution (in particular at most 1, and 0 for failure lines),
and a record line is never the terminal timeout line. -/
def stepProps (o : StepOut) : Prop :=
  o.dm + o.du + o.dc + o.ds = lineContrib o.line ∧
    ∀ n, o.line ≠ ELine.timeoutLine n

theorem updatePath_props (env : EmpEnv) (st : EmpState) (e : Employee)
    (u : MMUser) (pre : List ECall) : stepProps (updatePath env st e u pre).1 := by
  cases h : env.updErr st.updCnt <;> simp [updatePath, h, stepProps, lineContrib]

theorem createdOk_props (env : EmpEnv) (st : EmpState) (e : Employee)
    (uname pwd : String) (calls : List ECall) (ncc : Nat) :
    stepProps (createdOk env st e uname pwd calls ncc).1 := by
  unfold createdOk
  cases h : env.updErr st.updCnt <;> simp [h, stepProps, lineContrib]

theorem createPath_props (env : EmpEnv) (k : Nat) (st : EmpState) (e : Employee)
    (pre : List ECall) : stepProps (createPath env k st e pre).1 := by
  unfold createPath
  cases h1 : env.createErr st.createCnt with
  | none => exact createdOk_props env st e _ _ _ _
  | some msg =>
    by_cases hm : goStringContains msg "username" = true
    · simp only [hm, if_pos]
      cases h2 : env.createErr (st.createCnt + 1) with
      | none => exact createdOk_props env _ e _ _ _ _
      | some msg2 => simp [stepProps, lineContrib]
    · simp only [hm, Bool.false_eq_true, if_neg, not_false_iff]
      simp [stepProps, lineContrib]

theorem processLookup_props (env : EmpEnv) (k : Nat) (st : EmpState)
    (e : Employee) (pre : List ECall) :
    stepProps (processLookup env k st e pre).1 := by
  unfold processLookup
  cases h1 : findByEmailMM st.mm e.companyEmail with
  | some u =>
    by_cases hd : (u.deleteAt == 0) = true
    · simp only [hd, if_pos]
      exact updatePath_props env st e u _
    · simp only [hd, Bool.false_eq_true, if_neg, not_false_iff]
      exact createPath_props env k st e _
  | none =>
    cases h2 : pickSearchMatch e.companyEmail
        (searchUsersMM env.termMatch st.mm e.companyEmail) with
    | some u => exact updatePath_props env st e u _
    | none => exact createPath_props env k st e _

theorem processEmployee_props (env : EmpEnv) (k : Nat) (st : EmpState)
    (e : Employee) : stepProps (processEmployee env k st e).1 := by
  unfold processEmployee
  by_cases h1 : (e.companyEmail == "") = true
  · simp only [h1, if_pos]; simp [stepProps, lineContrib]
  · simp only [h1, Bool.false_eq_true, if_neg, not_false_iff]
    by_cases h2 : (e.status != "Active") = true
    · simp only [h2, if_pos]; simp [stepProps, lineContrib]
    · simp only [h2, Bool.false_eq_true, if_neg, not_false_iff]
      by_cases h3 : (e.customChatID != "") = true
      · simp only [h3, if_pos]
        cases h4 : findById st.mm e.customChatID with
        | some u =>
          by_cases h5 : (u.deleteAt == 0) = true
          · simp only [h5, if_pos]; simp [stepProps, lineContrib]
          · simp only [h5, Bool.false_eq_true, if_neg, not_false_iff]
            exact processLookup_props env k st e _
        | none => exact processLookup_props env k st e _
      · simp only [h3, Bool.false_eq_true, if_neg, not_false_iff]
        exact processLookup_props env k st e _

theorem syncEmpLoop_props (env : EmpEnv) :
    ∀ (emps : List Employee) (i : Nat) (st : EmpState),
      ∀ o ∈ (syncEmpLoop env emps i st).1, stepProps o := by
  intro emps
  induction emps with
  | nil => intro i st o ho; simp [syncEmpLoop] at ho
  | cons e rest ih =>
    intro i st o ho
    rw [syncEmpLoop] at ho
    by_cases ht : env.timeoutAt i = true
    · simp [ht] at ho
    · simp only [ht, Bool.false_eq_true, if_neg, not_false_iff] at ho
      rcases List.mem_cons.1 ho with heq | hrest
      · subst heq; exact processEmployee_props env i st e
      · exact ih (i + 1) _ o hrest

theorem sum_counters_eq (outs : List StepOut) (h : ∀ o ∈ outs, stepProps o) :
    sumDm outs + sumDu outs + sumDc outs + sumDs outs =
      ((outs.map (fun o => o.line)).map lineContrib).sum := by
  induction outs with
  | nil => simp [sumDm, sumDu, sumDc, sumDs]
  | cons o rest ih =>
    have ho := (h o (List.mem_cons_self o rest)).1
    have hrest := ih (fun x hx => h x (List.mem_cons_of_mem o hx))
    simp only [sumDm, sumDu, sumDc, sumDs, List.map_cons, List.sum_cons] at hrest ⊢
    omega

theorem lineContrib_le_one (l : ELine) : lineContrib l ≤ 1 := by
  cases l <;> simp [lineContrib]

theorem contrib_sum_le (lines : List ELine) :
    (lines.map lineContrib).sum ≤ lines.length := by
  induction lines with
  | nil => simp
  | cons l rest ih =>
    simp only [List.map_cons, List.sum_cons, List.length_cons]
    have := lineContrib_le_one l
    omega

def isTimeoutLine : ELine → Bool
  | ELine.timeoutLine _ => true
  | _ => false

/-- Deadline truncation of a whole `SyncEmployees` run: with the deadline
first observed expired before record `i0 < |emps|`, the run returns
`timedOut = true`, an audit trail of the `i0` processed records followed by
exactly one terminal timeout line, and a `TotalProcessed` strictly below the
number of fetched records. -/
theorem syncEmployees_timeout_shape (env : EmpEnv) (emps : List Employee)
    (mm0 : List MMUser) (i0 : Nat)
    (hbefore : ∀ j, j < i0 → env.timeoutAt j = false)
    (hat : env.timeoutAt i0 = true) (hlen : i0 < emps.length) :
    (syncEmployees env emps mm0).res.timedOut = true ∧
      (syncEmployees env emps mm0).res.userResults.length = i0 + 1 ∧
      (syncEmployees env emps mm0).res.userResults.getLast? =
        some (ELine.timeoutLine i0) ∧
      (syncEmployees env emps mm0).res.userResults.countP isTimeoutLine = 1 ∧
      (syncEmployees env emps mm0).res.totalProcessed < emps.length := by
  have hloop := syncEmpLoop_timeout env i0 hbefore hat emps 0 (empInitState mm0)
    (by omega) (by omega)
  have hprops := syncEmpLoop_props env emps 0 (empInitState mm0)
  have hcount0 : ((syncEmpLoop env emps 0 (empInitState mm0)).1.map
      (fun o => o.line)).countP isTimeoutLine = 0 := by
    rw [List.countP_eq_length_filter]
    have hall : ∀ l ∈ (syncEmpLoop env emps 0 (empInitState mm0)).1.map
        (fun o => o.line), isTimeoutLine l = false := by
      intro l hl
      rcases List.mem_map.1 hl with ⟨o, ho, rfl⟩
      have hnt := (hprops o ho).2
      cases hline : o.line <;> simp [isTimeoutLine]
      exact absurd hline (hnt _)
    rw [List.filter_eq_nil_iff.2 (by intro a ha; rw [hall a ha]; simp)]
    rfl
  unfold syncEmployees mkEmpRunOut
  rw [hloop.2]
  refine ⟨rfl, ?_, ?_, ?_, ?_⟩
  · simp only [List.length_append, List.length_map, hloop.1, List.length_singleton]
    omega
  · simp only [List.getLast?_concat]
  · rw [List.countP_append, hcount0]
    simp [isTimeoutLine]
  · have hsum := sum_counters_eq _ hprops
    have hle := contrib_sum_le ((syncEmpLoop env emps 0 (empInitState mm0)).1.map
      (fun o => o.line))
    simp only [List.length_map, hloop.1] at hle
    simp only [hsum]
    omega

/-- The step output of a live-linked record, at every position of the run:
if record `j` of the loop was processed at all, and its cross-reference
resolves live in the initial directory, its step output is the AlreadyLinked
short-circuit (the chat directory only ever grows during a run, so initial
resolution is preserved at processing time). -/
theorem syncEmpLoop_matched_at (env : EmpEnv) (mm0 : List MMUser) :
    ∀ (emps : List Employee) (i : Nat) (st : EmpState), (∃ t, st.mm = mm0 ++ t) →
      ∀ (j : Nat) (hj : j < emps.length),
        (emps[j].companyEmail == "") = false →
        (emps[j].status != "Active") = false →
        (emps[j].customChatID != "") = true →
        resolvesLive mm0 emps[j].customChatID = true →
        ∀ o, (syncEmpLoop env emps i st).1[j]? = some o →
          o = { line := ELine.alreadyMapped emps[j].firstName emps[j].lastName
                  emps[j].companyEmail,
                dm := 1, du := 0, dc := 0, ds := 0, ops := [],
                calls := [ECall.getUser emps[j].customChatID], emp := emps[j] } := by
  intro emps
  induction emps with
  | nil => intro i st _ j hj; simp at hj
  | cons e rest ih =>
    intro i st hgrow j hj he hs hc hr o ho
    rw [syncEmpLoop] at ho
    by_cases ht : env.timeoutAt i = true
    · simp [ht] at ho
    · simp only [ht, Bool.false_eq_true, if_neg, not_false_iff] at ho
      cases j with
      | zero =>
        obtain ⟨t, hst⟩ := hgrow
        have hr2 : resolvesLive st.mm e.customChatID = true := by
          rw [hst]
          exact resolvesLive_append _ _ _ (by simpa using hr)
        have hm := processEmployee_matched env i st e (by simpa using he)
          (by simpa using hs) (by simpa using hc) hr2
        simp only [hm] at ho
        simp only [List.getElem?_cons_zero, Option.some.injEq] at ho
        subst ho
        simp
      | succ j2 =>
        have hj2 : j2 < rest.length := by simpa using hj
        obtain ⟨t, hst⟩ := hgrow
        obtain ⟨t2, hst2⟩ := processEmployee_mm env i st e
        have hrec := ih (i + 1) (processEmployee env i st e).2
          ⟨t ++ t2, by rw [hst2, hst, List.append_assoc]⟩ j2 hj2
          (by simpa using he) (by simpa using hs) (by simpa using hc)
          (by simpa using hr) o (by simpa using ho)
        simpa using hrec

/-- C8.  An employee record processed by `SyncEmployees` whose
cross-reference already holds the id of a live chat account causes no
lookup-by-email call (neither `GetUserByEmail` nor the `SearchUsers`
fallback): its only chat-API call is the `GetUser` re-validation, and its
outcome is AlreadyLinked (Matched). -/
theorem syncEmployees_live_link_short_circuit (env : EmpEnv)
    (emps : List Employee) (mm0 : List MMUser) (j : Nat)
    (hj : j < emps.length)
    (he : emps[j].companyEmail ≠ "")
    (hs : emps[j].status = "Active")
    (hc : emps[j].customChatID ≠ "")
    (hr : resolvesLive mm0 emps[j].customChatID = true)
    (cs : List ECall)
    (hproc : (syncEmployees env emps mm0).recCalls[j]? = some cs) :
    cs = [ECall.getUser emps[j].customChatID] ∧
      cs.countP isEmailLookup = 0 ∧
      (syncEmployees env emps mm0).res.userResults[j]? =
        some (ELine.alreadyMapped emps[j].firstName emps[j].lastName
          emps[j].companyEmail) := by
  unfold syncEmployees mkEmpRunOut at hproc ⊢
  simp only [List.getElem?_map] at hproc
  cases ho : (syncEmpLoop env emps 0 (empInitState mm0)).1[j]? with
  | none => rw [ho] at hproc; simp at hproc
  | some o =>
    rw [ho] at hproc
    simp only [Option.map_some', Option.some.injEq] at hproc
    have hO := syncEmpLoop_matched_at env mm0 emps 0 (empInitState mm0)
      ⟨[], by simp [empInitState]⟩ j hj (by simpa using he) (by simp [hs])
      (by simpa using hc) hr o ho
    subst hO
    subst hproc
    have hjlt : j < (syncEmpLoop env emps 0 (empInitState mm0)).1.length := by
      by_contra hge
      rw [List.getElem?_eq_none (by omega)] at ho
      exact absurd ho (by simp)
    refine ⟨rfl, by simp [isEmailLookup], ?_⟩
    rw [List.getElem?_append_left (by simpa using hjlt)]
    simp only [List.getElem?_map]
    rw [ho]
    simp

theorem chooseUA_no_create (gen : Nat → String) (mm : List MMUser) :
    ∀ (fuel rts : Nat) (u : String),
      (chooseUA gen mm fuel rts u).2.countP isCreateCall = 0 := by
  intro fuel
  induction fuel with
  | zero => intro rts u; simp [chooseUA]
  | succ f ih =>
    intro rts u
    rw [chooseUA]
    by_cases h : (findByUsername mm u).isSome = true
    · simp only [h, if_pos, List.countP_cons]
      simp only [isCreateCall, Bool.false_eq_true, if_neg]
      have := ih (rts + 1) (gen (rts + 1) ++ "_" ++ toString (rts + 1))
      simpa using this
    · simp only [h, Bool.false_eq_true, if_neg, not_false_iff]
      simp [isCreateCall]

theorem createdOk_create_calls (env : EmpEnv) (st : EmpState) (e : Employee)
    (uname pwd : String) (calls : List ECall) (ncc : Nat) :
    (createdOk env st e uname pwd calls ncc).1.calls.filter isCreateCall =
      calls.filter isCreateCall := by
  unfold createdOk
  cases h : env.updErr st.updCnt <;> simp [h, isCreateCall]

theorem filter_eq_nil_of_countP {p : ECall → Bool} {l : List ECall}
    (h : l.countP p = 0) : l.filter p = [] := by
  rw [List.countP_eq_length_filter] at h
  exact List.length_eq_zero.mp h

/-- C9.  On the create path of `SyncEmployees` for an unmatched employee, a
username-collision error from `CreateUser` is recovered by exactly one retry
with the timestamp-derived suffix `_timestamp%10000`, this is the only
automatic retry (never more than two create calls), and when the retried
create also fails the record's outcome is the per-record failure line with no
counter movement and no further create attempt. -/
theorem syncEmployees_collision_retry_once (env : EmpEnv) (k : Nat)
    (st : EmpState) (e : Employee) (pre : List ECall)
    (hpre : pre.countP isCreateCall = 0) :
    ((createPath env k st e pre).1.calls.countP isCreateCall ≤ 2) ∧
      (env.createErr st.createCnt = none →
        (createPath env k st e pre).1.calls.countP isCreateCall = 1) ∧
      (∀ msg, env.createErr st.createCnt = some msg →
        goStringContains msg "username" = false →
        (createPath env k st e pre).1.calls.countP isCreateCall = 1 ∧
          (createPath env k st e pre).1.line =
            ELine.createFailed e.firstName e.lastName e.companyEmail msg) ∧
      (∀ msg, env.createErr st.createCnt = some msg →
        goStringContains msg "username" = true →
        (createPath env k st e pre).1.calls.filter isCreateCall =
          [ECall.createUser (chooseUsername (fun g =>
              GenerateUsername env.lower (env.unameRand k g) e.firstName e.lastName)
              st.mm).1,
            ECall.createUser ((chooseUsername (fun g =>
              GenerateUsername env.lower (env.unameRand k g) e.firstName e.lastName)
              st.mm).1 ++ "_" ++ toString (env.tsTok k % 10000))] ∧
        (∀ msg2, env.createErr (st.createCnt + 1) = some msg2 →
          (createPath env k st e pre).1.line =
            ELine.createFailedRetry e.firstName e.lastName e.companyEmail msg2 ∧
          (createPath env k st e pre).1.dm = 0 ∧
          (createPath env k st e pre).1.du = 0 ∧
          (createPath env k st e pre).1.dc = 0 ∧
          (createPath env k st e pre).1.ds = 0)) := by
  have hprefilter : pre.filter isCreateCall = [] := filter_eq_nil_of_countP hpre
  have huc : ∀ gen, (chooseUA gen st.mm 5 0 (gen 0)).2.filter isCreateCall = [] :=
    fun gen => filter_eq_nil_of_countP (chooseUA_no_create gen st.mm 5 0 (gen 0))
  unfold createPath chooseUsername
  cases h1 : env.createErr st.createCnt with
  | none =>
    refine ⟨?_, ?_, ?_, ?_⟩
    · rw [List.countP_eq_length_filter, createdOk_create_calls]
      simp [List.filter_append, hprefilter, huc, isCreateCall]
    · intro _
      rw [List.countP_eq_length_filter, createdOk_create_calls]
      simp [List.filter_append, hprefilter, huc, isCreateCall]
    · intro msg hmsg; simp [h1] at hmsg
    · intro msg hmsg; simp [h1] at hmsg
  | some msg =>
    by_cases hm : goStringContains msg "username" = true
    · simp only [hm, if_pos]
      cases h2 : env.createErr (st.createCnt + 1) with
      | none =>
        refine ⟨?_, ?_, ?_, ?_⟩
        · rw [List.countP_eq_length_filter, createdOk_create_calls]
          simp [List.filter_append, hprefilter, huc, isCreateCall]
        · intro hnone; simp [h1] at hnone
        · intro msg2 hmsg2 hfold
          injection hmsg2 with hinj
          subst hinj
          rw [hfold] at hm
          cases hm
        · intro msg2 hmsg2 _
          injection hmsg2 with hinj
          subst hinj
          refine ⟨?_, ?_⟩
          · rw [createdOk_create_calls]
            simp [List.filter_append, hprefilter, huc, isCreateCall]
          · intro msg3 hmsg3; simp [h2] at hmsg3
      | some msg2 =>
        refine ⟨?_, ?_, ?_, ?_⟩
        · rw [List.countP_eq_length_filter]
          simp [List.filter_append, hprefilter, huc, isCreateCall]
        · intro hnone; simp [h1] at hnone
        · intro msg3 hmsg3 hfold
          injection hmsg3 with hinj
          subst hinj
          rw [hfold] at hm
          cases hm
        · intro msg3 hmsg3 _
          injection hmsg3 with hinj
          subst hinj
          refine ⟨?_, ?_⟩
          · simp [List.filter_append, hprefilter, huc, isCreateCall]
          · intro msg4 hmsg4
            injection hmsg4 with hinj2
            subst hinj2
            simp
    · simp only [hm, Bool.false_eq_true, if_neg, not_false_iff]
      refine ⟨?_, ?_, ?_, ?_⟩
      · rw [List.countP_eq_length_filter]
        simp [List.filter_append, hprefilter, huc, isCreateCall]
      · intro hnone; simp [h1] at hnone
      · intro msg3 hmsg3 _
        injection hmsg3 with hinj
        subst hinj
        refine ⟨?_, rfl⟩
        rw [List.countP_eq_length_filter]
        simp [List.filter_append, hprefilter, huc, isCreateCall]
      · intro msg3 hmsg3 hfold
        injection hmsg3 with hinj
        subst hinj
        rw [hfold] at hm
        exact absurd rfl hm

/-! ### Idempotence of `SyncEmployees` (C2) -/

/-- No two distinct accounts share an id. -/
def idsOk (mm : List MMUser) : Prop := ∀ a ∈ mm, ∀ b ∈ mm, a.id = b.id → a = b

/-- Run invariant: ids are unique and non-empty, and every id the generator
will still hand out is fresh for the current directory. -/
def StInv (env : EmpEnv) (st : EmpState) : Prop :=
  idsOk st.mm ∧ (∀ x ∈ st.mm, x.id ≠ "") ∧
    (∀ n, st.idCnt ≤ n → ∀ x ∈ st.mm, env.idGen n ≠ x.id)

/-- An error-free, deadline-free environment with a well-behaved id
generator: every remote write succeeds, generated ids are non-empty and
pairwise distinct, and the deadline never fires. -/
def EnvOk (env : EmpEnv) : Prop :=
  (∀ n, env.updErr n = none) ∧ (∀ n, env.createErr n = none) ∧
    (∀ n, env.idGen n ≠ "") ∧ (∀ m n, m ≠ n → env.idGen m ≠ env.idGen n) ∧
    (∀ j, env.timeoutAt j = false)

theorem findById_unique {mm : List MMUser} {u : MMUser}
    (hids : idsOk mm) (hmem : u ∈ mm) : findById mm u.id = some u := by
  cases hf : findById mm u.id with
  | none =>
    have := List.find?_eq_none.1 hf u hmem
    simp at this
  | some v =>
    have hvm := List.mem_of_find?_eq_some hf
    have hvid := List.find?_some hf
    simp only [beq_iff_eq] at hvid
    rw [hids v hvm u hmem hvid]

theorem resolvesLive_of_mem {mm : List MMUser} {u : MMUser}
    (hids : idsOk mm) (hmem : u ∈ mm) (hlive : u.deleteAt = 0) :
    resolvesLive mm u.id = true := by
  unfold resolvesLive
  rw [findById_unique hids hmem]
  simpa using hlive

def skipKind : ELine → Bool
  | ELine.skippedNoEmail _ _ _ => true
  | ELine.skippedInactive _ _ _ => true
  | _ => false

def matchedKind : ELine → Bool
  | ELine.alreadyMapped _ _ _ => true
  | _ => false

/-- A Linked-transition outcome: the cross-reference was written this run
(mapped-to-existing, or created-and-mapped). -/
def linkKind : ELine → Bool
  | ELine.mappedExisting _ _ _ => true
  | ELine.createdLine _ _ _ _ _ _ => true
  | _ => false

/-- Classification of a record's outcome in an error-free run, stated against
a directory `mmF` that contains everything the record's processing saw: the
record was skipped for a reason that re-running reproduces, or it ended
matched/linked with its cross-reference resolving to a live account of
`mmF`. -/
def OutClass (mmF : List MMUser) (o : StepOut) : Prop :=
  (skipKind o.line = true ∧ (o.emp.companyEmail = "" ∨ o.emp.status ≠ "Active")) ∨
    ((matchedKind o.line = true ∨ linkKind o.line = true) ∧
      o.emp.companyEmail ≠ "" ∧ o.emp.status = "Active" ∧
      o.emp.customChatID ≠ "" ∧
      ∃ u, u ∈ mmF ∧ u.id = o.emp.customChatID ∧ u.deleteAt = 0)

theorem OutClass_mono {mm t : List MMUser} {o : StepOut}
    (h : OutClass mm o) : OutClass (mm ++ t) o := by
  rcases h with h | ⟨hk, he, hs, hc, u, hu, hid, hl⟩
  · exact Or.inl h
  · exact Or.inr ⟨hk, he, hs, hc, u, List.mem_append_left t hu, hid, hl⟩

theorem updatePath_class (env : EmpEnv) (st : EmpState) (e : Employee)
    (u : MMUser) (pre : List ECall)
    (hupd : ∀ n, env.updErr n = none) (hinv : StInv env st)
    (hmem : u ∈ st.mm) (hlive : u.deleteAt = 0)
    (he : e.companyEmail ≠ "") (hs : e.status = "Active") :
    StInv env (updatePath env st e u pre).2 ∧
      (updatePath env st e u pre).2.mm = st.mm ∧
      (updatePath env st e u pre).2.idCnt = st.idCnt ∧
      OutClass (updatePath env st e u pre).2.mm (updatePath env st e u pre).1 ∧
      linkKind (updatePath env st e u pre).1.line = true := by
  unfold updatePath
  rw [hupd st.updCnt]
  refine ⟨hinv, rfl, rfl, ?_, rfl⟩
  exact Or.inr ⟨Or.inr rfl, he, hs, hinv.2.1 u hmem, u, hmem, rfl, hlive⟩

theorem createdOk_class (env : EmpEnv) (st : EmpState) (e : Employee)
    (uname pwd : String) (calls : List ECall) (ncc : Nat)
    (hupd : ∀ n, env.updErr n = none)
    (hid : ∀ n, env.idGen n ≠ "")
    (hinj : ∀ m n, m ≠ n → env.idGen m ≠ env.idGen n)
    (hinv : StInv env st)
    (he : e.companyEmail ≠ "") (hs : e.status = "Active") :
    StInv env (createdOk env st e uname pwd calls ncc).2 ∧
      (createdOk env st e uname pwd calls ncc).2.mm =
        st.mm ++ [mkCreatedUser env st e uname] ∧
      (createdOk env st e uname pwd calls ncc).2.idCnt = st.idCnt + 1 ∧
      OutClass (createdOk env st e uname pwd calls ncc).2.mm
        (createdOk env st e uname pwd calls ncc).1 ∧
      linkKind (createdOk env st e uname pwd calls ncc).1.line = true := by
  unfold createdOk
  rw [hupd st.updCnt]
  dsimp only
  have hfresh : ∀ x ∈ st.mm, env.idGen st.idCnt ≠ x.id :=
    hinv.2.2 st.idCnt (Nat.le_refl _)
  have hcu_mem : mkCreatedUser env st e uname ∈
      st.mm ++ [mkCreatedUser env st e uname] :=
    List.mem_append_right _ (List.mem_singleton.2 rfl)
  refine ⟨⟨?_, ?_, ?_⟩, rfl, rfl, ?_, rfl⟩
  · intro a ha b hb hab
    rcases List.mem_append.1 ha with ha1 | ha2
    · rcases List.mem_append.1 hb with hb1 | hb2
      · exact hinv.1 a ha1 b hb1 hab
      · rw [List.mem_singleton.1 hb2] at hab ⊢
        exact absurd hab.symm (hfresh a ha1)
    · rcases List.mem_append.1 hb with hb1 | hb2
      · rw [List.mem_singleton.1 ha2] at hab ⊢
        exact absurd hab (hfresh b hb1)
      · rw [List.mem_singleton.1 ha2, List.mem_singleton.1 hb2]
  · intro x hx
    rcases List.mem_append.1 hx with hx1 | hx2
    · exact hinv.2.1 x hx1
    · rw [List.mem_singleton.1 hx2]
      exact hid st.idCnt
  · intro n hn x hx
    rcases List.mem_append.1 hx with hx1 | hx2
    · exact hinv.2.2 n (Nat.le_of_succ_le hn) x hx1
    · rw [List.mem_singleton.1 hx2]
      exact hinj n st.idCnt (Nat.ne_of_gt (Nat.lt_of_succ_le hn))
  · exact Or.inr ⟨Or.inr rfl, he, hs, hid st.idCnt, mkCreatedUser env st e uname,
      hcu_mem, rfl, rfl⟩

theorem createPath_class (env : EmpEnv) (k : Nat) (st : EmpState) (e : Employee)
    (pre : List ECall)
    (hupd : ∀ n, env.updErr n = none)
    (hcreate : ∀ n, env.createErr n = none)
    (hid : ∀ n, env.idGen n ≠ "")
    (hinj : ∀ m n, m ≠ n → env.idGen m ≠ env.idGen n)
    (hinv : StInv env st)
    (he : e.companyEmail ≠ "") (hs : e.status = "Active") :
    StInv env (createPath env k st e pre).2 ∧
      (∃ t, (createPath env k st e pre).2.mm = st.mm ++ t) ∧
      st.idCnt ≤ (createPath env k st e pre).2.idCnt ∧
      OutClass (createPath env k st e pre).2.mm (createPath env k st e pre).1 ∧
      linkKind (createPath env k st e pre).1.line = true := by
  unfold createPath
  simp only [hcreate]
  refine ⟨(createdOk_class env st e _ _ _ _ hupd hid hinj hinv he hs).1,
    ⟨_, (createdOk_class env st e _ _ _ _ hupd hid hinj hinv he hs).2.1⟩,
    ?_, (createdOk_class env st e _ _ _ _ hupd hid hinj hinv he hs).2.2.2.1,
    (createdOk_class env st e _ _ _ _ hupd hid hinj hinv he hs).2.2.2.2⟩
  rw [(createdOk_class env st e _ _ _ _ hupd hid hinj hinv he hs).2.2.1]
  omega

theorem processLookup_class (env : EmpEnv) (k : Nat) (st : EmpState)
    (e : Employee) (pre : List ECall)
    (hupd : ∀ n, env.updErr n = none)
    (hcreate : ∀ n, env.createErr n = none)
    (hid : ∀ n, env.idGen n ≠ "")
    (hinj : ∀ m n, m ≠ n → env.idGen m ≠ env.idGen n)
    (hinv : StInv env st)
    (he : e.companyEmail ≠ "") (hs : e.status = "Active") :
    StInv env (processLookup env k st e pre).2 ∧
      (∃ t, (processLookup env k st e pre).2.mm = st.mm ++ t) ∧
      st.idCnt ≤ (processLookup env k st e pre).2.idCnt ∧
      OutClass (processLookup env k st e pre).2.mm
        (processLookup env k st e pre).1 ∧
      linkKind (processLookup env k st e pre).1.line = true := by
  unfold processLookup
  cases h1 : findByEmailMM st.mm e.companyEmail with
  | some u =>
    by_cases hd : (u.deleteAt == 0) = true
    · simp only [hd, if_pos]
      have hmem := List.mem_of_find?_eq_some h1
      have h := updatePath_class env st e u
        (pre ++ [ECall.getUserByEmail e.companyEmail]) hupd hinv hmem
        (by simpa using hd) he hs
      exact ⟨h.1, ⟨[], by rw [h.2.1]; simp⟩, by rw [h.2.2.1], h.2.2.2.1, h.2.2.2.2⟩
    · simp only [hd, Bool.false_eq_true, if_neg, not_false_iff]
      exact createPath_class env k st e _ hupd hcreate hid hinj hinv he hs
  | none =>
    cases h2 : pickSearchMatch e.companyEmail
        (searchUsersMM env.termMatch st.mm e.companyEmail) with
    | some u =>
      have hmemf := List.mem_of_find?_eq_some h2
      have hmem : u ∈ st.mm := List.mem_of_mem_filter hmemf
      have hpred := List.find?_some h2
      simp only [Bool.and_eq_true, beq_iff_eq] at hpred
      have hlive : u.deleteAt = 0 := hpred.2
      have h := updatePath_class env st e u
        (pre ++ [ECall.getUserByEmail e.companyEmail, ECall.searchUsers e.companyEmail])
        hupd hinv hmem hlive he hs
      exact ⟨h.1, ⟨[], by rw [h.2.1]; simp⟩, by rw [h.2.2.1], h.2.2.2.1, h.2.2.2.2⟩
    | none =>
      exact createPath_class env k st e _ hupd hcreate hid hinj hinv he hs

/-- In an error-free environment, every processed record's output is in one
of the replayable classes, and the state invariant is preserved. -/
theorem processEmployee_class (env : EmpEnv) (k : Nat) (st : EmpState)
    (e : Employee)
    (hupd : ∀ n, env.updErr n = none)
    (hcreate : ∀ n, env.createErr n = none)
    (hid : ∀ n, env.idGen n ≠ "")
    (hinj : ∀ m n, m ≠ n → env.idGen m ≠ env.idGen n)
    (hinv : StInv env st) :
    StInv env (processEmployee env k st e).2 ∧
      (∃ t, (processEmployee env k st e).2.mm = st.mm ++ t) ∧
      st.idCnt ≤ (processEmployee env k st e).2.idCnt ∧
      OutClass (processEmployee env k st e).2.mm (processEmployee env k st e).1 := by
  unfold processEmployee
  by_cases h1 : (e.companyEmail == "") = true
  · simp only [h1, if_pos]
    exact ⟨hinv, ⟨[], by simp⟩, Nat.le_refl _,
      Or.inl ⟨rfl, Or.inl (by simpa using h1)⟩⟩
  · simp only [h1, Bool.false_eq_true, if_neg, not_false_iff]
    have he : e.companyEmail ≠ "" := by simpa using h1
    by_cases h2 : (e.status != "Active") = true
    · simp only [h2, if_pos]
      exact ⟨hinv, ⟨[], by simp⟩, Nat.le_refl _,
        Or.inl ⟨rfl, Or.inr (by simpa using h2)⟩⟩
    · simp only [h2, Bool.false_eq_true, if_neg, not_false_iff]
      have hs : e.status = "Active" := by simpa using h2
      by_cases h3 : (e.customChatID != "") = true
      · simp only [h3, if_pos]
        cases h4 : findById st.mm e.customChatID with
        | some u =>
          by_cases h5 : (u.deleteAt == 0) = true
          · simp only [h5, if_pos]
            have hmem := List.mem_of_find?_eq_some h4
            have hbid := List.find?_some h4
            refine ⟨hinv, ⟨[], by simp⟩, Nat.le_refl _, Or.inr ⟨Or.inl rfl, he, hs,
              by simpa using h3, u, hmem, by simpa using hbid, by simpa using h5⟩⟩
          · simp only [h5, Bool.false_eq_true, if_neg, not_false_iff]
            have h := processLookup_class env k st e [ECall.getUser e.customChatID]
              hupd hcreate hid hinj hinv he hs
            exact ⟨h.1, h.2.1, h.2.2.1, h.2.2.2.1⟩
        | none =>
          have h := processLookup_class env k st e [ECall.getUser e.customChatID]
            hupd hcreate hid hinj hinv he hs
          exact ⟨h.1, h.2.1, h.2.2.1, h.2.2.2.1⟩
      · simp only [h3, Bool.false_eq_true, if_neg, not_false_iff]
        have h := processLookup_class env k st e []
          hupd hcreate hid hinj hinv he hs
        exact ⟨h.1, h.2.1, h.2.2.1, h.2.2.2.1⟩

theorem syncEmpLoop_class (env : EmpEnv)
    (hupd : ∀ n, env.updErr n = none) (hcreate : ∀ n, env.createErr n = none)
    (hid : ∀ n, env.idGen n ≠ "")
    (hinj : ∀ m n, m ≠ n → env.idGen m ≠ env.idGen n) :
    ∀ (emps : List Employee) (i : Nat) (st : EmpState), StInv env st →
      (∃ t, (syncEmpLoop env emps i st).2.2.mm = st.mm ++ t) ∧
        StInv env (syncEmpLoop env emps i st).2.2 ∧
        ∀ o ∈ (syncEmpLoop env emps i st).1,
          OutClass (syncEmpLoop env emps i st).2.2.mm o := by
  intro emps
  induction emps with
  | nil =>
    intro i st hinv
    exact ⟨⟨[], by simp [syncEmpLoop]⟩, hinv, by simp [syncEmpLoop]⟩
  | cons e rest ih =>
    intro i st hinv
    rw [syncEmpLoop]
    by_cases ht : env.timeoutAt i = true
    · simp only [ht, if_pos]
      exact ⟨⟨[], by simp⟩, hinv, by simp⟩
    · simp only [ht, Bool.false_eq_true, if_neg, not_false_iff]
      have hstep := processEmployee_class env i st e hupd hcreate hid hinj hinv
      have hrec := ih (i + 1) (processEmployee env i st e).2 hstep.1
      refine ⟨?_, hrec.2.1, ?_⟩
      · obtain ⟨t1, h1⟩ := hstep.2.1
        obtain ⟨t2, h2⟩ := hrec.1
        exact ⟨t1 ++ t2, by rw [h2, h1, List.append_assoc]⟩
      · intro o ho
        rcases List.mem_cons.1 ho with heq | hmem
        · subst heq
          obtain ⟨t2, h2⟩ := hrec.1
          rw [h2]
          exact OutClass_mono hstep.2.2.2
        · exact hrec.2.2 o hmem

theorem skipKind_excl (l : ELine) (h : skipKind l = true) :
    matchedKind l = false ∧ linkKind l = false := by
  cases l <;> simp_all [skipKind, matchedKind, linkKind]

/-- Replay: running the loop over the records as the first (error-free) run
left them, against the chat directory the first run left, matches or re-skips
every record, never writes, and never touches the state. -/
theorem syncEmpLoop_replay (env2 : EmpEnv) (mmF : List MMUser)
    (hids : idsOk mmF) (hto : ∀ j, env2.timeoutAt j = false) :
    ∀ (outs1 : List StepOut) (i : Nat) (st2 : EmpState), st2.mm = mmF →
      (∀ o ∈ outs1, OutClass mmF o) →
      (syncEmpLoop env2 (outs1.map (fun o => o.emp)) i st2).2.2 = st2 ∧
        (syncEmpLoop env2 (outs1.map (fun o => o.emp)) i st2).2.1 = none ∧
        (∀ o2 ∈ (syncEmpLoop env2 (outs1.map (fun o => o.emp)) i st2).1,
          o2.du = 0 ∧ o2.dc = 0) ∧
        ∀ (j : Nat) (o1 : StepOut), outs1[j]? = some o1 →
          matchedKind o1.line = true ∨ linkKind o1.line = true →
          ∃ o2, (syncEmpLoop env2 (outs1.map (fun o => o.emp)) i st2).1[j]? =
              some o2 ∧
            o2.line = ELine.alreadyMapped o1.emp.firstName o1.emp.lastName
              o1.emp.companyEmail := by
  intro outs1
  induction outs1 with
  | nil =>
    intro i st2 hst2 _
    refine ⟨rfl, rfl, by simp [syncEmpLoop], ?_⟩
    intro j o1 h
    simp at h
  | cons o1 rest ih =>
    intro i st2 hst2 hclass
    have hcl := hclass o1 (List.mem_cons_self o1 rest)
    have hstep : processEmployee env2 i st2 o1.emp =
        ((processEmployee env2 i st2 o1.emp).1, st2) ∧
        (processEmployee env2 i st2 o1.emp).1.du = 0 ∧
        (processEmployee env2 i st2 o1.emp).1.dc = 0 ∧
        ((matchedKind o1.line = true ∨ linkKind o1.line = true) →
          (processEmployee env2 i st2 o1.emp).1.line =
            ELine.alreadyMapped o1.emp.firstName o1.emp.lastName
              o1.emp.companyEmail) := by
      rcases hcl with ⟨hskip, hreason⟩ | ⟨hk, he, hs, hc, u, hu, hid2, hlive⟩
      · have hnk : ¬(matchedKind o1.line = true ∨ linkKind o1.line = true) := by
          have h2 := skipKind_excl o1.line hskip
          intro hk
          rcases hk with hk | hk
          · rw [h2.1] at hk; cases hk
          · rw [h2.2] at hk; cases hk
        rcases hreason with hemail | hstatus
        · have hcond : (o1.emp.companyEmail == "") = true := by simpa using hemail
          unfold processEmployee
          simp only [hcond, if_pos]
          exact ⟨by trivial, by trivial, by trivial, fun hk => absurd hk hnk⟩
        · by_cases hcond : (o1.emp.companyEmail == "") = true
          · unfold processEmployee
            simp only [hcond, if_pos]
            exact ⟨by trivial, by trivial, by trivial, fun hk => absurd hk hnk⟩
          · have hcond2 : (o1.emp.status != "Active") = true := by
              simpa using hstatus
            unfold processEmployee
            simp only [hcond, Bool.false_eq_true, if_neg, not_false_iff,
              hcond2, if_pos]
            exact ⟨by trivial, by trivial, by trivial, fun hk => absurd hk hnk⟩
      · have hr : resolvesLive st2.mm o1.emp.customChatID = true := by
          rw [hst2, ← hid2]
          exact resolvesLive_of_mem hids hu hlive
        have hm := processEmployee_matched env2 i st2 o1.emp
          (by simpa using he) (by simp [hs]) (by simpa using hc) hr
        rw [hm]
        exact ⟨rfl, rfl, rfl, fun _ => rfl⟩
    rw [List.map_cons, syncEmpLoop]
    simp only [hto i, Bool.false_eq_true, if_neg, not_false_iff]
    rw [hstep.1]
    have hrec := ih (i + 1) st2 hst2
      (fun o ho => hclass o (List.mem_cons_of_mem o1 ho))
    refine ⟨hrec.1, hrec.2.1, ?_, ?_⟩
    · intro o2 ho2
      rcases List.mem_cons.1 ho2 with heq | hmem
      · subst heq
        exact ⟨hstep.2.1, hstep.2.2.1⟩
      · exact hrec.2.2.1 o2 hmem
    · intro j o hj hk
      cases j with
      | zero =>
        simp only [List.getElem?_cons_zero, Option.some.injEq] at hj
        subst hj
        exact ⟨(processEmployee env2 i st2 o1.emp).1, by simp, hstep.2.2.2 hk⟩
      | succ j2 =>
        simp only [List.getElem?_cons_succ] at hj ⊢
        exact hrec.2.2.2 j2 o hj hk

theorem sumDu_eq_zero {outs : List StepOut} (h : ∀ o ∈ outs, o.du = 0) :
    sumDu outs = 0 := by
  unfold sumDu
  refine List.sum_eq_zero ?_
  intro x hx
  rcases List.mem_map.1 hx with ⟨o, ho, rfl⟩
  exact h o ho

theorem sumDc_eq_zero {outs : List StepOut} (h : ∀ o ∈ outs, o.dc = 0) :
    sumDc outs = 0 := by
  unfold sumDc
  refine List.sum_eq_zero ?_
  intro x hx
  rcases List.mem_map.1 hx with ⟨o, ho, rfl⟩
  exact h o ho

/-- C2.  Idempotence of the A→B sync: if the first `SyncEmployees` run is
error-free (all remote writes succeed, generated account ids are fresh,
non-empty and pairwise distinct, deadline never fires) over a chat directory
with unique non-empty ids, then a second run over the pair of directories
exactly as the first run left them (and otherwise unchanged) produces zero
Created and zero Linked/Updated outcomes, and every record that was linked
(mapped or created) in the first run resolves AlreadyLinked in the second. -/
theorem syncEmployees_idempotent (env1 env2 : EmpEnv) (emps : List Employee)
    (mm0 : List MMUser)
    (henv1 : EnvOk env1)
    (hto2 : ∀ j, env2.timeoutAt j = false)
    (hids0 : idsOk mm0)
    (hne0 : ∀ x ∈ mm0, x.id ≠ "")
    (hfresh : ∀ (n : Nat), ∀ x ∈ mm0, env1.idGen n ≠ x.id) :
    (syncEmployees env2 (syncEmployees env1 emps mm0).empsOut
        (syncEmployees env1 emps mm0).mmOut).res.createdCount = 0 ∧
      (syncEmployees env2 (syncEmployees env1 emps mm0).empsOut
        (syncEmployees env1 emps mm0).mmOut).res.updatedCount = 0 ∧
      ∀ (j : Nat) (l1 : ELine),
        (syncEmployees env1 emps mm0).res.userResults[j]? = some l1 →
        linkKind l1 = true →
        ∃ f ln em,
          (syncEmployees env2 (syncEmployees env1 emps mm0).empsOut
            (syncEmployees env1 emps mm0).mmOut).res.userResults[j]? =
            some (ELine.alreadyMapped f ln em) := by
  obtain ⟨hupd1, hcreate1, hid1, hinj1, hto1⟩ := henv1
  have hinv0 : StInv env1 (empInitState mm0) :=
    ⟨hids0, hne0, fun n _ x hx => hfresh n x hx⟩
  have hclass := syncEmpLoop_class env1 hupd1 hcreate1 hid1 hinj1 emps 0
    (empInitState mm0) hinv0
  have hnt := syncEmpLoop_noTimeout env1 hto1 emps 0 (empInitState mm0)
  have hempsOut : (syncEmployees env1 emps mm0).empsOut =
      (syncEmpLoop env1 emps 0 (empInitState mm0)).1.map (fun o => o.emp) := by
    unfold syncEmployees mkEmpRunOut
    simp [hnt.1, List.drop_length]
  have hmmOut : (syncEmployees env1 emps mm0).mmOut =
      (syncEmpLoop env1 emps 0 (empInitState mm0)).2.2.mm := rfl
  have hidsF : idsOk (syncEmpLoop env1 emps 0 (empInitState mm0)).2.2.mm :=
    hclass.2.1.1
  have hreplay := syncEmpLoop_replay env2
    (syncEmpLoop env1 emps 0 (empInitState mm0)).2.2.mm hidsF hto2
    (syncEmpLoop env1 emps 0 (empInitState mm0)).1 0
    (empInitState (syncEmpLoop env1 emps 0 (empInitState mm0)).2.2.mm) rfl
    hclass.2.2
  rw [hempsOut, hmmOut]
  have hres1lines : (syncEmployees env1 emps mm0).res.userResults =
      (syncEmpLoop env1 emps 0 (empInitState mm0)).1.map (fun o => o.line) := by
    unfold syncEmployees mkEmpRunOut
    rw [hnt.2]
    simp
  refine ⟨?_, ?_, ?_⟩
  · unfold syncEmployees mkEmpRunOut
    exact sumDc_eq_zero (fun o ho => (hreplay.2.2.1 o ho).2)
  · unfold syncEmployees mkEmpRunOut
    exact sumDu_eq_zero (fun o ho => (hreplay.2.2.1 o ho).1)
  · intro j l1 hj hlink
    rw [hres1lines] at hj
    simp only [List.getElem?_map] at hj
    cases ho1 : (syncEmpLoop env1 emps 0 (empInitState mm0)).1[j]? with
    | none => rw [ho1] at hj; simp at hj
    | some o1 =>
      rw [ho1] at hj
      simp only [Option.map_some', Option.some.injEq] at hj
      subst hj
      obtain ⟨o2, ho2, hline2⟩ := hreplay.2.2.2 j o1 ho1 (Or.inr hlink)
      refine ⟨o1.emp.firstName, o1.emp.lastName, o1.emp.companyEmail, ?_⟩
      unfold syncEmployees mkEmpRunOut
      rw [hreplay.2.1]
      simp only [List.append_nil, List.getElem?_map]
      rw [ho2, Option.map_some', hline2]

/-! ## The SyncUsers run (server/api.go:76-419)

Chat accounts drive ERP employee creation/linking, then ERP-user
provisioning.  The ERP directory (employees and ERP users) is modelled as
concrete lists threaded through the run; the five fallible ERP calls of a
record (`GetEmployeeByEmail`, `UpdateEmployee`, `CreateEmployee`,
`GetUserByEmail`, `CreateUser`) consume a single run-wide call counter `fc`
against the outcome oracle `erpFail` (`some msg` = transport/protocol error
with that message, `none` = the call reaches the directory). -/

/-- The ERPNext `User` record (client.go:76-85). -/
structure ErpUser where
  name : String
  email : String
  firstName : String
  lastName : String
  username : String
  enabled : Nat
  roleProfileName : String
  sendWelcomeEmail : Nat
deriving DecidableEq

/-- One result line of the `SyncUsers` audit trail, one constructor per
`fmt.Sprintf` format in api.go (the `isNew` flag selects between the
"Employee Created, …" and "Employee Updated, …"/"Already Mapped, …"
variants exactly as the `isNewEmployee` branches do). -/
inductive ULine
  | skippedNoEmail (username email : String)
  | skippedBot (username email : String)
  | skippedDeleted (username email : String)
  | findError (username email msg : String)
  | updateFailed (username email msg : String)
  | createFailed (username email msg : String)
  | userCheckFailed (isNew : Bool) (username email msg : String)
  | erpUserExists (isNew : Bool) (username email : String)
  | erpUserCreateFailed (isNew : Bool) (username email msg : String)
  | erpUserCreated (isNew : Bool) (username email : String)
  | timeoutLine (n : Nat)
deriving DecidableEq

structure UsrEnv where
  erpFail : Nat → Option String
  empIdGen : Nat → String
  erpUserIdGen : Nat → String
  timeoutAt : Nat → Bool

structure UsrState where
  emps : List Employee
  erpUsers : List ErpUser
  fc : Nat
  ec : Nat
  uc : Nat
deriving DecidableEq

structure UStepOut where
  line : ULine
  dm : Nat
  du : Nat
  dc : Nat
  ds : Nat
  derpC : Nat
  derpA : Nat
  ops : List UpdOp
deriving DecidableEq

/-- `GetEmployeeByEmail` (client.go:184-248): first employee whose
`company_email` equals the argument. -/
def findEmpByEmail (emps : List Employee) (e : String) : Option Employee :=
  emps.find? (fun x => x.companyEmail == e)

/-- `GetUserByEmail` on the ERP user directory (client.go:626-677). -/
def findErpUserByEmail (us : List ErpUser) (e : String) : Option ErpUser :=
  us.find? (fun x => x.email == e)

/-- `UpdateEmployee` (client.go:325-380): a partial update sending only
`custom_chat_id`, keyed by the employee name. -/
def updEmpChatId (emps : List Employee) (name uid : String) : List Employee :=
  emps.map (fun x => if x.name == name then { x with customChatID := uid } else x)

/-- Username for a new ERP user (api.go:362-367): the part of the email
before `@`, falling back to `user_` + the first 8 characters of the chat id.
(Go slices `user.Id[:8]` by bytes; chat ids are ASCII.) -/
def erpUsername (u : MMUser) : String :=
  if ((u.email.splitOn "@").headD "").length == 0 then
    "user_" ++ String.mk (u.id.data.take 8)
  else (u.email.splitOn "@").headD ""

/-- Phase 2 of a `SyncUsers` record (api.go:331-400): ensure an ERP user
exists for the email; check and create are fallible, an existing user counts
`ERPUsersAlready`, a created one `ERPUsersCreated`. -/
def processUserPhase2 (env : UsrEnv) (st : UsrState) (u : MMUser)
    (isNew : Bool) : (ULine × Nat × Nat) × UsrState :=
  match env.erpFail st.fc with
  | some msg => ((ULine.userCheckFailed isNew u.username u.email msg, 0, 0),
      { st with fc := st.fc + 1 })
  | none =>
    match findErpUserByEmail st.erpUsers u.email with
    | some _ => ((ULine.erpUserExists isNew u.username u.email, 0, 1),
        { st with fc := st.fc + 1 })
    | none =>
      match env.erpFail (st.fc + 1) with
      | some msg => ((ULine.erpUserCreateFailed isNew u.username u.email msg, 0, 0),
          { st with fc := st.fc + 2 })
      | none =>
        ((ULine.erpUserCreated isNew u.username u.email, 1, 0),
          { emps := st.emps,
            erpUsers := st.erpUsers ++
              [{ name := env.erpUserIdGen st.uc, email := u.email,
                 firstName := u.firstName, lastName := u.lastName,
                 username := erpUsername u, enabled := 1,
                 roleProfileName := "Mặc định", sendWelcomeEmail := 0 }],
            fc := st.fc + 2, ec := st.ec, uc := st.uc + 1 })

/-- Package a phase-1 outcome with the phase-2 result. -/
def withPhase2 (env : UsrEnv) (st : UsrState) (u : MMUser) (isNew : Bool)
    (dm du dc : Nat) (ops : List UpdOp) : UStepOut × UsrState :=
  ({ line := (processUserPhase2 env st u isNew).1.1, dm := dm, du := du,
     dc := dc, ds := 0,
     derpC := (processUserPhase2 env st u isNew).1.2.1,
     derpA := (processUserPhase2 env st u isNew).1.2.2, ops := ops },
    (processUserPhase2 env st u isNew).2)

/-- The employee record `SyncUsers` creates for an unmatched chat account
(api.go:305-314): fixed gender and placeholder dates, cross-reference set to
the chat id at creation. -/
def mkCreatedEmployee (env : UsrEnv) (st : UsrState) (u : MMUser) : Employee :=
  { name := env.empIdGen st.ec, companyEmail := u.email,
    firstName := u.firstName, lastName := u.lastName, gender := "Male",
    dateOfBirth := "2000-01-01", dateOfJoining := "2000-01-01",
    status := "Active", customChatID := u.id }

/-- Process one chat account (the body of the loop at api.go:211-401, after
the timeout check). -/
def processUser (env : UsrEnv) (st : UsrState) (u : MMUser) :
    UStepOut × UsrState :=
  if u.email == "" then
    ({ line := ULine.skippedNoEmail u.username u.email, dm := 0, du := 0,
       dc := 0, ds := 1, derpC := 0, derpA := 0, ops := [] }, st)
  else if u.isBot then
    ({ line := ULine.skippedBot u.username u.email, dm := 0, du := 0,
       dc := 0, ds := 1, derpC := 0, derpA := 0, ops := [] }, st)
  else if u.deleteAt != 0 then
    ({ line := ULine.skippedDeleted u.username u.email, dm := 0, du := 0,
       dc := 0, ds := 1, derpC := 0, derpA := 0, ops := [] }, st)
  else
    match env.erpFail st.fc with
    | some msg =>
      ({ line := ULine.findError u.username u.email msg, dm := 0, du := 0,
         dc := 0, ds := 0, derpC := 0, derpA := 0, ops := [] },
        { st with fc := st.fc + 1 })
    | none =>
      match findEmpByEmail st.emps u.email with
      | some emp =>
        if emp.customChatID != u.id then
          match env.erpFail (st.fc + 1) with
          | some msg =>
            ({ line := ULine.updateFailed u.username u.email msg, dm := 0,
               du := 0, dc := 0, ds := 0, derpC := 0, derpA := 0, ops := [] },
              { st with fc := st.fc + 2 })
          | none =>
            withPhase2 env
              { emps := updEmpChatId st.emps emp.name u.id,
                erpUsers := st.erpUsers, fc := st.fc + 2, ec := st.ec,
                uc := st.uc } u false 0 1 0
              [⟨emp.name, u.id, emp.customChatID, emp.companyEmail⟩]
        else
          withPhase2 env { st with fc := st.fc + 1 } u false 1 0 0 []
      | none =>
        match env.erpFail (st.fc + 1) with
        | some msg =>
          ({ line := ULine.createFailed u.username u.email msg, dm := 0,
             du := 0, dc := 0, ds := 0, derpC := 0, derpA := 0, ops := [] },
            { st with fc := st.fc + 2 })
        | none =>
          withPhase2 env
            { emps := st.emps ++ [mkCreatedEmployee env st u],
              erpUsers := st.erpUsers, fc := st.fc + 2, ec := st.ec + 1,
              uc := st.uc } u true 0 0 1 []

/-- The record loop of `SyncUsers` (api.go:211-401) with its per-record
deadline check (api.go:213-219). -/
def syncUsrLoop (env : UsrEnv) : List MMUser → Nat → UsrState →
    List UStepOut × Option Nat × UsrState
  | [], _, st => ([], none, st)
  | u :: rest, i, st =>
    if env.timeoutAt i then ([], some i, st)
    else
      let p := processUser env st u
      let nxt := syncUsrLoop env rest (i + 1) p.2
      (p.1 :: nxt.1, nxt.2.1, nxt.2.2)

def usumDm (outs : List UStepOut) : Nat := (outs.map (fun o => o.dm)).sum

def usumDu (outs : List UStepOut) : Nat := (outs.map (fun o => o.du)).sum

def usumDc (outs : List UStepOut) : Nat := (outs.map (fun o => o.dc)).sum

def usumDs (outs : List UStepOut) : Nat := (outs.map (fun o => o.ds)).sum

def usumErpC (outs : List UStepOut) : Nat := (outs.map (fun o => o.derpC)).sum

def usumErpA (outs : List UStepOut) : Nat := (outs.map (fun o => o.derpA)).sum

/-- The per-run `SyncResult` of `SyncUsers` (api.go:194-204);
`TotalProcessed` set at api.go:404 as the sum of the four counters. -/
structure USyncResult where
  matchedCount : Nat
  updatedCount : Nat
  createdCount : Nat
  skippedCount : Nat
  erpUsersCreated : Nat
  erpUsersAlready : Nat
  userResults : List ULine
  totalProcessed : Nat
  timedOut : Bool
deriving DecidableEq

structure UsrRunOut where
  res : USyncResult
  empsOut : List Employee
  erpUsersOut : List ErpUser
  ops : List UpdOp
deriving DecidableEq

def usrInitState (emps0 : List Employee) (erpU0 : List ErpUser) : UsrState :=
  { emps := emps0, erpUsers := erpU0, fc := 0, ec := 0, uc := 0 }

def mkUsrRunOut (l : List UStepOut × Option Nat × UsrState) : UsrRunOut :=
  { res :=
      { matchedCount := usumDm l.1, updatedCount := usumDu l.1,
        createdCount := usumDc l.1, skippedCount := usumDs l.1,
        erpUsersCreated := usumErpC l.1, erpUsersAlready := usumErpA l.1,
        userResults := l.1.map (fun o => o.line) ++
          (match l.2.1 with | some n => [ULine.timeoutLine n] | none => []),
        totalProcessed := usumDm l.1 + usumDu l.1 + usumDc l.1 + usumDs l.1,
        timedOut := l.2.1.isSome },
    empsOut := l.2.2.emps,
    erpUsersOut := l.2.2.erpUsers,
    ops := (l.1.map (fun o => o.ops)).flatten }

def syncUsers (env : UsrEnv) (users : List MMUser) (emps0 : List Employee)
    (erpU0 : List ErpUser) : UsrRunOut :=
  mkUsrRunOut (syncUsrLoop env users 0 (usrInitState emps0 erpU0))

/-- The full `SyncUsers` endpoint (api.go:76-419): ensure the custom field
(api.go:93-121) and the "Mặc định" role profile (api.go:126-146) exist —
failures abort the run — then fetch the chat users (abort on failure,
api.go:156-185) and run the record loop. -/
def syncUsersFull (fieldCheck : Except String Bool)
    (fieldCreate : Except String Unit)
    (roleCheck : Except String Bool)
    (roleCreate : Except String Unit)
    (fetch : Except String (List MMUser))
    (env : UsrEnv) (emps0 : List Employee) (erpU0 : List ErpUser) :
    Except AbortReason UsrRunOut :=
  match fieldCheck with
  | Except.error msg => Except.error (AbortReason.fieldCheck msg)
  | Except.ok fex =>
    match (if fex then Except.ok () else fieldCreate) with
    | Except.error msg => Except.error (AbortReason.fieldCreate msg)
    | Except.ok _ =>
      match roleCheck with
      | Except.error msg => Except.error (AbortReason.roleCheck msg)
      | Except.ok rex =>
        match (if rex then Except.ok () else roleCreate) with
        | Except.error msg => Except.error (AbortReason.roleCreate msg)
        | Except.ok _ =>
          match fetch with
          | Except.error msg => Except.error (AbortReason.fetch msg)
          | Except.ok users => Except.ok (syncUsers env users emps0 erpU0)

/-! ### Per-record facts about `processUser` -/

/-- Every successful cross-reference write of a `SyncUsers` record targets an
employee found by exact-email match for a live, non-bot chat account:
the new id is that account's id, the overwritten id differed from it, and the
employee's company email is the account's email. -/
theorem processUser_ops (env : UsrEnv) (st : UsrState) (u : MMUser) :
    ∀ op ∈ (processUser env st u).1.ops,
      u.deleteAt = 0 ∧ u.email ≠ "" ∧ u.isBot = false ∧
        op.newId = u.id ∧ op.oldId ≠ u.id ∧ op.expectedEmail = u.email := by
  intro op hop
  unfold processUser at hop
  by_cases h1 : (u.email == "") = true
  · simp only [h1, if_pos] at hop; simp at hop
  · simp only [h1, Bool.false_eq_true, if_neg, not_false_iff] at hop
    by_cases h2 : u.isBot = true
    · simp only [h2, if_pos] at hop; simp at hop
    · simp only [h2, Bool.false_eq_true, if_neg, not_false_iff] at hop
      by_cases h3 : (u.deleteAt != 0) = true
      · simp only [h3, if_pos] at hop; simp at hop
      · simp only [h3, Bool.false_eq_true, if_neg, not_false_iff] at hop
        cases h4 : env.erpFail st.fc with
        | some msg => rw [h4] at hop; simp at hop
        | none =>
          rw [h4] at hop
          cases h5 : findEmpByEmail st.emps u.email with
          | some emp =>
            rw [h5] at hop
            by_cases h6 : (emp.customChatID != u.id) = true
            · simp only [h6, if_pos] at hop
              cases h7 : env.erpFail (st.fc + 1) with
              | some msg => rw [h7] at hop; simp at hop
              | none =>
                rw [h7] at hop
                simp only [withPhase2, List.mem_singleton] at hop
                subst hop
                have hmail := List.find?_some h5
                simp only [beq_iff_eq] at hmail
                refine ⟨by simpa using h3, by simpa using h1, by simpa using h2,
                  rfl, by simpa using h6, hmail⟩
            · simp only [h6, Bool.false_eq_true, if_neg, not_false_iff] at hop
              simp [withPhase2] at hop
          | none =>
            rw [h5] at hop
            cases h7 : env.erpFail (st.fc + 1) with
            | some msg => rw [h7] at hop; simp at hop
            | none =>
              rw [h7] at hop
              simp [withPhase2] at hop

theorem syncUsrLoop_ops (env : UsrEnv) (users0 : List MMUser) :
    ∀ (users : List MMUser) (i : Nat) (st : UsrState),
      (∀ u ∈ users, u ∈ users0) →
      ∀ o ∈ (syncUsrLoop env users i st).1, ∀ op ∈ o.ops,
        ∃ u ∈ users0, u.deleteAt = 0 ∧ u.email ≠ "" ∧ u.isBot = false ∧
          op.newId = u.id ∧ op.oldId ≠ u.id ∧ op.expectedEmail = u.email := by
  intro users
  induction users with
  | nil => intro i st _ o ho; simp [syncUsrLoop] at ho
  | cons u rest ih =>
    intro i st hsub o ho op hop
    rw [syncUsrLoop] at ho
    by_cases ht : env.timeoutAt i = true
    · simp [ht] at ho
    · simp only [ht, Bool.false_eq_true, if_neg, not_false_iff] at ho
      rcases List.mem_cons.1 ho with heq | hmem
      · subst heq
        have h := processUser_ops env st u op hop
        exact ⟨u, hsub u (List.mem_cons_self u rest), h⟩
      · exact ih (i + 1) _ (fun x hx => hsub x (List.mem_cons_of_mem u hx)) o hmem op hop

/-- How many processed records a `SyncUsers` line stands for in
`TotalProcessed`: skips count 1; phase-1 failures count 0; every phase-2 line
counts 1 (its record already moved the matched/updated/created counter in
phase 1); the timeout line counts 0. -/
def uLineContrib : ULine → Nat
  | ULine.skippedNoEmail _ _ => 1
  | ULine.skippedBot _ _ => 1
  | ULine.skippedDeleted _ _ => 1
  | ULine.userCheckFailed _ _ _ _ => 1
  | ULine.erpUserExists _ _ _ => 1
  | ULine.erpUserCreateFailed _ _ _ _ => 1
  | ULine.erpUserCreated _ _ _ => 1
  | _ => 0

def uStepProps (o : UStepOut) : Prop :=
  o.dm + o.du + o.dc + o.ds = uLineContrib o.line ∧
    ∀ n, o.line ≠ ULine.timeoutLine n

theorem processUserPhase2_line (env : UsrEnv) (st : UsrState) (u : MMUser)
    (isNew : Bool) :
    uLineContrib (processUserPhase2 env st u isNew).1.1 = 1 ∧
      ∀ n, (processUserPhase2 env st u isNew).1.1 ≠ ULine.timeoutLine n := by
  unfold processUserPhase2
  cases h1 : env.erpFail st.fc with
  | some msg => simp [uLineContrib]
  | none =>
    cases h2 : findErpUserByEmail st.erpUsers u.email with
    | some x => simp [uLineContrib]
    | none =>
      cases h3 : env.erpFail (st.fc + 1) with
      | some msg => simp [uLineContrib]
      | none => simp [uLineContrib]

theorem processUser_props (env : UsrEnv) (st : UsrState) (u : MMUser) :
    uStepProps (processUser env st u).1 := by
  unfold processUser
  by_cases h1 : (u.email == "") = true
  · simp only [h1, if_pos]; simp [uStepProps, uLineContrib]
  · simp only [h1, Bool.false_eq_true, if_neg, not_false_iff]
    by_cases h2 : u.isBot = true
    · simp only [h2, if_pos]; simp [uStepProps, uLineContrib]
    · simp only [h2, Bool.false_eq_true, if_neg, not_false_iff]
      by_cases h3 : (u.deleteAt != 0) = true
      · simp only [h3, if_pos]; simp [uStepProps, uLineContrib]
      · simp only [h3, Bool.false_eq_true, if_neg, not_false_iff]
        cases h4 : env.erpFail st.fc with
        | some msg => simp [uStepProps, uLineContrib]
        | none =>
          cases h5 : findEmpByEmail st.emps u.email with
          | some emp =>
            by_cases h6 : (emp.customChatID != u.id) = true
            · simp only [h6, if_pos]
              cases h7 : env.erpFail (st.fc + 1) with
              | some msg => simp [uStepProps, uLineContrib]
              | none =>
                have hp2 := processUserPhase2_line env
                  { emps := updEmpChatId st.emps emp.name u.id,
                    erpUsers := st.erpUsers, fc := st.fc + 2, ec := st.ec,
                    uc := st.uc } u false
                exact ⟨by simp [withPhase2, hp2.1], by simp [withPhase2, hp2.2]⟩
            · simp only [h6, Bool.false_eq_true, if_neg, not_false_iff]
              have hp2 := processUserPhase2_line env
                { st with fc := st.fc + 1 } u false
              exact ⟨by simp [withPhase2, hp2.1], by simp [withPhase2, hp2.2]⟩
          | none =>
            cases h7 : env.erpFail (st.fc + 1) with
            | some msg => simp [uStepProps, uLineContrib]
            | none =>
              have hp2 := processUserPhase2_line env
                { emps := st.emps ++ [mkCreatedEmployee env st u],
                  erpUsers := st.erpUsers, fc := st.fc + 2, ec := st.ec + 1,
                  uc := st.uc } u true
              exact ⟨by simp [withPhase2, hp2.1], by simp [withPhase2, hp2.2]⟩

theorem syncUsrLoop_props (env : UsrEnv) :
    ∀ (users : List MMUser) (i : Nat) (st : UsrState),
      ∀ o ∈ (syncUsrLoop env users i st).1, uStepProps o := by
  intro users
  induction users with
  | nil => intro i st o ho; simp [syncUsrLoop] at ho
  | cons u rest ih =>
    intro i st o ho
    rw [syncUsrLoop] at ho
    by_cases ht : env.timeoutAt i = true
    · simp [ht] at ho
    · simp only [ht, Bool.false_eq_true, if_neg, not_false_iff] at ho
      rcases List.mem_cons.1 ho with heq | hrest
      · subst heq; exact processUser_props env st u
      · exact ih (i + 1) _ o hrest

theorem syncUsrLoop_timeout (env : UsrEnv) (i0 : Nat)
    (hbefore : ∀ j, j < i0 → env.timeoutAt j = false)
    (hat : env.timeoutAt i0 = true) :
    ∀ (users : List MMUser) (i : Nat) (st : UsrState), i ≤ i0 →
      i0 - i < users.length →
      (syncUsrLoop env users i st).1.length = i0 - i ∧
        (syncUsrLoop env users i st).2.1 = some i0 := by
  intro users
  induction users with
  | nil => intro i st hi hlen; simp at hlen
  | cons u rest ih =>
    intro i st hi hlen
    rw [syncUsrLoop]
    by_cases hii : i = i0
    · subst hii
      simp [hat]
    · have hlt : i < i0 := by omega
      have hf := hbefore i hlt
      simp only [hf, Bool.false_eq_true, if_neg, not_false_iff]
      have hlen2 : i0 - (i + 1) < rest.length := by
        simp only [List.length_cons] at hlen
        omega
      have hrec := ih (i + 1) (processUser env st u).2 (by omega) hlen2
      refine ⟨?_, hrec.2⟩
      simp only [List.length_cons, hrec.1]
      omega

theorem syncUsrLoop_noTimeout (env : UsrEnv)
    (hto : ∀ j, env.timeoutAt j = false) :
    ∀ (users : List MMUser) (i : Nat) (st : UsrState),
      (syncUsrLoop env users i st).1.length = users.length ∧
        (syncUsrLoop env users i st).2.1 = none := by
  intro users
  induction users with
  | nil => intro i st; simp [syncUsrLoop]
  | cons u rest ih =>
    intro i st
    rw [syncUsrLoop]
    simp only [hto i, Bool.false_eq_true, if_neg, not_false_iff]
    have hrec := ih (i + 1) (processUser env st u).2
    refine ⟨?_, hrec.2⟩
    simp only [List.length_cons, hrec.1]

theorem usum_counters_eq (outs : List UStepOut) (h : ∀ o ∈ outs, uStepProps o) :
    usumDm outs + usumDu outs + usumDc outs + usumDs outs =
      ((outs.map (fun o => o.line)).map uLineContrib).sum := by
  induction outs with
  | nil => simp [usumDm, usumDu, usumDc, usumDs]
  | cons o rest ih =>
    have ho := (h o (List.mem_cons_self o rest)).1
    have hrest := ih (fun x hx => h x (List.mem_cons_of_mem o hx))
    simp only [usumDm, usumDu, usumDc, usumDs, List.map_cons, List.sum_cons] at hrest ⊢
    omega

theorem uLineContrib_le_one (l : ULine) : uLineContrib l ≤ 1 := by
  cases l <;> simp [uLineContrib]

theorem ucontrib_sum_le (lines : List ULine) :
    (lines.map uLineContrib).sum ≤ lines.length := by
  induction lines with
  | nil => simp
  | cons l rest ih =>
    simp only [List.map_cons, List.sum_cons, List.length_cons]
    have := uLineContrib_le_one l
    omega

def isUTimeoutLine : ULine → Bool
  | ULine.timeoutLine _ => true
  | _ => false

/-- Deadline truncation of a whole `SyncUsers` run (mirror of
`syncEmployees_timeout_shape`). -/
theorem syncUsers_timeout_shape (env : UsrEnv) (users : List MMUser)
    (emps0 : List Employee) (erpU0 : List ErpUser) (i0 : Nat)
    (hbefore : ∀ j, j < i0 → env.timeoutAt j = false)
    (hat : env.timeoutAt i0 = true) (hlen : i0 < users.length) :
    (syncUsers env users emps0 erpU0).res.timedOut = true ∧
      (syncUsers env users emps0 erpU0).res.userResults.length = i0 + 1 ∧
      (syncUsers env users emps0 erpU0).res.userResults.getLast? =
        some (ULine.timeoutLine i0) ∧
      (syncUsers env users emps0 erpU0).res.userResults.countP isUTimeoutLine = 1 ∧
      (syncUsers env users emps0 erpU0).res.totalProcessed < users.length := by
  have hloop := syncUsrLoop_timeout env i0 hbefore hat users 0
    (usrInitState emps0 erpU0) (by omega) (by omega)
  have hprops := syncUsrLoop_props env users 0 (usrInitState emps0 erpU0)
  have hcount0 : ((syncUsrLoop env users 0 (usrInitState emps0 erpU0)).1.map
      (fun o => o.line)).countP isUTimeoutLine = 0 := by
    rw [List.countP_eq_length_filter]
    have hall : ∀ l ∈ (syncUsrLoop env users 0 (usrInitState emps0 erpU0)).1.map
        (fun o => o.line), isUTimeoutLine l = false := by
      intro l hl
      rcases List.mem_map.1 hl with ⟨o, ho, rfl⟩
      have hnt := (hprops o ho).2
      cases hline : o.line <;> simp [isUTimeoutLine]
      exact absurd hline (hnt _)
    rw [List.filter_eq_nil_iff.2 (by intro a ha; rw [hall a ha]; simp)]
    rfl
  unfold syncUsers mkUsrRunOut
  rw [hloop.2]
  refine ⟨rfl, ?_, ?_, ?_, ?_⟩
  · simp only [List.length_append, List.length_map, hloop.1, List.length_singleton]
    omega
  · simp only [List.getLast?_concat]
  · rw [List.countP_append, hcount0]
    simp [isUTimeoutLine]
  · have hsum := usum_counters_eq _ hprops
    have hle := ucontrib_sum_le ((syncUsrLoop env users 0
      (usrInitState emps0 erpU0)).1.map (fun o => o.line))
    simp only [List.length_map, hloop.1] at hle
    simp only [hsum]
    omega

/-- C1.  Sticky linking: a cross-reference, once set, is never overwritten by
a sync run while it still points at a live chat account with the matching
email.  For `SyncEmployees`, every cross-reference write overwriting a
non-empty old id happens only when that id does not resolve to a live account
at all in the chat directory the run started from (the run only grows the
directory, so this is equivalent at the time of the write).  For `SyncUsers`,
assuming live chat accounts have pairwise distinct emails, every write
overwriting a non-empty old id happens only when the old id is not a live
account whose email matches the employee's company email. -/
theorem sync_no_overwrite_of_live_link :
    (∀ (env : EmpEnv) (emps : List Employee) (mm0 : List MMUser),
      ∀ op ∈ (syncEmployees env emps mm0).ops, op.oldId ≠ "" →
        ¬ ∃ x, findById mm0 op.oldId = some x ∧ x.deleteAt = 0 ∧
          x.email = op.expectedEmail) ∧
    (∀ (env : UsrEnv) (users : List MMUser) (emps0 : List Employee)
        (erpU0 : List ErpUser),
      (∀ x ∈ users, ∀ y ∈ users, x.deleteAt = 0 → y.deleteAt = 0 →
        x.email = y.email → x = y) →
      ∀ op ∈ (syncUsers env users emps0 erpU0).ops, op.oldId ≠ "" →
        ¬ ∃ x, x ∈ users ∧ x.id = op.oldId ∧ x.deleteAt = 0 ∧
          x.email = op.expectedEmail) := by
  constructor
  · rintro env emps mm0 op hop hold ⟨x, hfind, hlive, _⟩
    have hmem : ∃ o ∈ (syncEmpLoop env emps 0 (empInitState mm0)).1,
        op ∈ o.ops := by
      unfold syncEmployees mkEmpRunOut at hop
      rcases List.mem_flatten.1 hop with ⟨s, hs, hops⟩
      rcases List.mem_map.1 hs with ⟨o, ho, rfl⟩
      exact ⟨o, ho, hops⟩
    obtain ⟨o, ho, hmemop⟩ := hmem
    have hres := syncEmpLoop_ops_resolve env mm0 emps 0 (empInitState mm0)
      ⟨[], by simp [empInitState]⟩ o ho op hmemop hold
    unfold resolvesLive at hres
    rw [hfind] at hres
    simp [hlive] at hres
  · rintro env users emps0 erpU0 huniq op hop hold ⟨x, hxmem, hxid, hxlive, hxemail⟩
    have hmem : ∃ o ∈ (syncUsrLoop env users 0 (usrInitState emps0 erpU0)).1,
        op ∈ o.ops := by
      unfold syncUsers mkUsrRunOut at hop
      rcases List.mem_flatten.1 hop with ⟨s, hs, hops⟩
      rcases List.mem_map.1 hs with ⟨o, ho, rfl⟩
      exact ⟨o, ho, hops⟩
    obtain ⟨o, ho, hmemop⟩ := hmem
    obtain ⟨u, humem, hud, hue, hub, hnew, hneq, hexp⟩ :=
      syncUsrLoop_ops env users users 0 (usrInitState emps0 erpU0)
        (fun y hy => hy) o ho op hmemop
    have hxu : x = u := huniq x hxmem u humem hxlive hud (by rw [hxemail, hexp])
    rw [hxu] at hxid
    exact hneq hxid.symm

/-- C4.  Deadline truncation, both directions: a run whose deadline first
expires before record `i0` (with records still unprocessed) checks the
elapsed time before each record, stops at record `i0`, appends exactly one
terminal timeout line as the last audit line, and returns `timedOut = true`
with `TotalProcessed` strictly below the number of fetched records — all
outputs of total functions, so no panic. -/
theorem sync_deadline_truncation :
    (∀ (env : EmpEnv) (emps : List Employee) (mm0 : List MMUser) (i0 : Nat),
      (∀ j, j < i0 → env.timeoutAt j = false) → env.timeoutAt i0 = true →
      i0 < emps.length →
      (syncEmployees env emps mm0).res.timedOut = true ∧
        (syncEmployees env emps mm0).res.userResults.length = i0 + 1 ∧
        (syncEmployees env emps mm0).res.userResults.getLast? =
          some (ELine.timeoutLine i0) ∧
        (syncEmployees env emps mm0).res.userResults.countP isTimeoutLine = 1 ∧
        (syncEmployees env emps mm0).res.totalProcessed < emps.length) ∧
    (∀ (env : UsrEnv) (users : List MMUser) (emps0 : List Employee)
        (erpU0 : List ErpUser) (i0 : Nat),
      (∀ j, j < i0 → env.timeoutAt j = false) → env.timeoutAt i0 = true →
      i0 < users.length →
      (syncUsers env users emps0 erpU0).res.timedOut = true ∧
        (syncUsers env users emps0 erpU0).res.userResults.length = i0 + 1 ∧
        (syncUsers env users emps0 erpU0).res.userResults.getLast? =
          some (ULine.timeoutLine i0) ∧
        (syncUsers env users emps0 erpU0).res.userResults.countP
          isUTimeoutLine = 1 ∧
        (syncUsers env users emps0 erpU0).res.totalProcessed < users.length) :=
  ⟨fun env emps mm0 i0 hb ha hl =>
    syncEmployees_timeout_shape env emps mm0 i0 hb ha hl,
   fun env users emps0 erpU0 i0 hb ha hl =>
    syncUsers_timeout_shape env users emps0 erpU0 i0 hb ha hl⟩

theorem syncEmployees_lines_all (env : EmpEnv) (emps : List Employee)
    (mm0 : List MMUser) (hto : ∀ j, env.timeoutAt j = false) :
    (syncEmployees env emps mm0).res.userResults.length = emps.length := by
  have h := syncEmpLoop_noTimeout env hto emps 0 (empInitState mm0)
  unfold syncEmployees mkEmpRunOut
  rw [h.2]
  simp [h.1]

theorem syncUsers_lines_all (env : UsrEnv) (users : List MMUser)
    (emps0 : List Employee) (erpU0 : List ErpUser)
    (hto : ∀ j, env.timeoutAt j = false) :
    (syncUsers env users emps0 erpU0).res.userResults.length = users.length := by
  have h := syncUsrLoop_noTimeout env hto users 0 (usrInitState emps0 erpU0)
  unfold syncUsers mkUsrRunOut
  rw [h.2]
  simp [h.1]

/-- C7 (amended).  Abort policy of both endpoints: a run aborts before
processing records exactly when schema bootstrap fails (custom-field
check/create, and for `SyncUsers` also role-profile check/create) or the
source-directory enumeration (fetch) fails; once record processing starts, no
error aborts — with no deadline expiry every fetched record is processed and
contributes exactly one line to the audit trail (per-record errors are
recorded in that record's line and processing continues). -/
theorem sync_abort_policy :
    (∀ (fieldCheck : Except String Bool) (fieldCreate : Except String Unit)
        (fetch : Except String (List Employee)) (env : EmpEnv)
        (mm0 : List MMUser),
      ((∃ r, syncEmployeesFull fieldCheck fieldCreate fetch env mm0 =
          Except.ok r) ↔
        ((∃ ex, fieldCheck = Except.ok ex) ∧
          (fieldCheck = Except.ok false → fieldCreate = Except.ok ()) ∧
          ∃ emps, fetch = Except.ok emps)) ∧
      (∀ emps r, fetch = Except.ok emps →
        syncEmployeesFull fieldCheck fieldCreate fetch env mm0 = Except.ok r →
        (∀ j, env.timeoutAt j = false) →
        r.res.userResults.length = emps.length)) ∧
    (∀ (fieldCheck roleCheck : Except String Bool)
        (fieldCreate roleCreate : Except String Unit)
        (fetch : Except String (List MMUser)) (env : UsrEnv)
        (emps0 : List Employee) (erpU0 : List ErpUser),
      ((∃ r, syncUsersFull fieldCheck fieldCreate roleCheck roleCreate fetch
          env emps0 erpU0 = Except.ok r) ↔
        ((∃ ex, fieldCheck = Except.ok ex) ∧
          (fieldCheck = Except.ok false → fieldCreate = Except.ok ()) ∧
          (∃ rex, roleCheck = Except.ok rex) ∧
          (roleCheck = Except.ok false → roleCreate = Except.ok ()) ∧
          ∃ users, fetch = Except.ok users)) ∧
      (∀ users r, fetch = Except.ok users →
        syncUsersFull fieldCheck fieldCreate roleCheck roleCreate fetch env
          emps0 erpU0 = Except.ok r →
        (∀ j, env.timeoutAt j = false) →
        r.res.userResults.length = users.length)) := by
  constructor
  · intro fieldCheck fieldCreate fetch env mm0
    constructor
    · unfold syncEmployeesFull
      cases fieldCheck with
      | error msg => simp
      | ok ex =>
        cases ex with
        | true =>
          cases fetch with
          | error msg => simp
          | ok emps => simp
        | false =>
          cases fieldCreate with
          | error msg => simp
          | ok uu =>
            cases fetch with
            | error msg => simp
            | ok emps => simp
    · intro emps r hfetch hok hto
      unfold syncEmployeesFull at hok
      cases fieldCheck with
      | error msg => simp at hok
      | ok ex =>
        cases ex with
        | true =>
          rw [hfetch] at hok
          simp at hok
          exact hok ▸ syncEmployees_lines_all env emps mm0 hto
        | false =>
          cases fieldCreate with
          | error msg => simp at hok
          | ok uu =>
            rw [hfetch] at hok
            simp at hok
            exact hok ▸ syncEmployees_lines_all env emps mm0 hto
  · intro fieldCheck roleCheck fieldCreate roleCreate fetch env emps0 erpU0
    constructor
    · unfold syncUsersFull
      cases fieldCheck with
      | error msg => simp
      | ok ex =>
        cases ex with
        | true =>
          cases roleCheck with
          | error msg => simp
          | ok rex =>
            cases rex with
            | true =>
              cases fetch with
              | error msg => simp
              | ok users => simp
            | false =>
              cases roleCreate with
              | error msg => simp
              | ok uu =>
                cases fetch with
                | error msg => simp
                | ok users => simp
        | false =>
          cases fieldCreate with
          | error msg => simp
          | ok uu =>
            cases roleCheck with
            | error msg => simp
            | ok rex =>
              cases rex with
              | true =>
                cases fetch with
                | error msg => simp
                | ok users => simp
              | false =>
                cases roleCreate with
                | error msg => simp
                | ok uu2 =>
                  cases fetch with
                  | error msg => simp
                  | ok users => simp
    · intro users r hfetch hok hto
      unfold syncUsersFull at hok
      cases fieldCheck with
      | error msg => simp at hok
      | ok ex =>
        have hfin : ∀ h : syncUsers env users emps0 erpU0 = r,
            r.res.userResults.length = users.length := by
          intro h
          rw [← h]
          exact syncUsers_lines_all env users emps0 erpU0 hto
        cases ex with
        | true =>
          cases roleCheck with
          | error msg => simp at hok
          | ok rex =>
            cases rex with
            | true =>
              rw [hfetch] at hok
              simp at hok
              exact hfin hok
            | false =>
              cases roleCreate with
              | error msg => simp at hok
              | ok uu =>
                rw [hfetch] at hok
                simp at hok
                exact hfin hok
        | false =>
          cases fieldCreate with
          | error msg => simp at hok
          | ok uu =>
            cases roleCheck with
            | error msg => simp at hok
            | ok rex =>
              cases rex with
              | true =>
                rw [hfetch] at hok
                simp at hok
                exact hfin hok
              | false =>
                cases roleCreate with
                | error msg => simp at hok
                | ok uu2 =>
                  rw [hfetch] at hok
                  simp at hok
                  exact hfin hok

/-- A concrete error-free `SyncEmployees` environment. -/
def cEmpEnv : EmpEnv :=
  { updErr := fun _ => none, createErr := fun _ => none,
    mailOk := fun _ => true, idGen := fun n => String.mk ('c' :: List.replicate n 'x'),
    lower := fun c => c, unameRand := fun _ _ _ _ => 0, pwdRand := fun _ _ => 0,
    tsTok := fun _ => 0, termMatch := fun _ _ => false,
    timeoutAt := fun _ => false }

/-- C7 counterexample.  The claim says only schema-bootstrap errors abort a
run and no transport/protocol error from either directory does; but with the
custom-field bootstrap succeeding and the employee enumeration returning a
transport error, `SyncEmployees` aborts the whole run with that fetch error
(api.go:471-476) — a transport error that aborted, attributed to no
record. -/
theorem sync_abort_policy_counterexample :
    syncEmployeesFull (Except.ok true) (Except.ok ())
      (Except.error "HTTP 500 from ERPNext") cEmpEnv [] =
      Except.error (AbortReason.fetch "HTTP 500 from ERPNext") := rfl

/-- A phase-1 failure line of `SyncUsers`: the record's match/link/create
step itself failed (employee lookup error, cross-reference update failure,
employee creation failure). -/
def isPhase1ErrorLine : ULine → Bool
  | ULine.findError _ _ _ => true
  | ULine.updateFailed _ _ _ => true
  | ULine.createFailed _ _ _ => true
  | _ => false

/-- C10 (amended).  In both endpoints `TotalProcessed` always equals
`Matched + Updated + Created + Skipped`, and equals the sum over the audit
lines of each line's contribution.  In `SyncEmployees` every record whose
processing ended in a per-record error contributes nothing (its line
contributes 0).  In `SyncUsers` this holds for records failing in the
match/link/create phase; a record that succeeded that phase still counts one
even when its ERP-user provisioning phase subsequently fails (see the
counterexample for the claim as originally stated). -/
theorem sync_total_processed :
    (∀ (env : EmpEnv) (emps : List Employee) (mm0 : List MMUser),
      (syncEmployees env emps mm0).res.totalProcessed =
        (syncEmployees env emps mm0).res.matchedCount +
          (syncEmployees env emps mm0).res.updatedCount +
          (syncEmployees env emps mm0).res.createdCount +
          (syncEmployees env emps mm0).res.skippedCount ∧
      (syncEmployees env emps mm0).res.totalProcessed =
        ((syncEmployees env emps mm0).res.userResults.map lineContrib).sum) ∧
    (∀ l : ELine, isErrorLineE l = true → lineContrib l = 0) ∧
    (∀ (env : UsrEnv) (users : List MMUser) (emps0 : List Employee)
        (erpU0 : List ErpUser),
      (syncUsers env users emps0 erpU0).res.totalProcessed =
        (syncUsers env users emps0 erpU0).res.matchedCount +
          (syncUsers env users emps0 erpU0).res.updatedCount +
          (syncUsers env users emps0 erpU0).res.createdCount +
          (syncUsers env users emps0 erpU0).res.skippedCount ∧
      (syncUsers env users emps0 erpU0).res.totalProcessed =
        ((syncUsers env users emps0 erpU0).res.userResults.map uLineContrib).sum) ∧
    (∀ l : ULine, isPhase1ErrorLine l = true → uLineContrib l = 0) := by
  refine ⟨?_, ?_, ?_, ?_⟩
  · intro env emps mm0
    refine ⟨rfl, ?_⟩
    have hprops := syncEmpLoop_props env emps 0 (empInitState mm0)
    have hsum := sum_counters_eq _ hprops
    unfold syncEmployees mkEmpRunOut
    rw [List.map_append, List.sum_append]
    cases ht : (syncEmpLoop env emps 0 (empInitState mm0)).2.1 with
    | none => simp [hsum]
    | some n => simp [hsum, lineContrib]
  · intro l hl
    cases l <;> simp_all [isErrorLineE, lineContrib]
  · intro env users emps0 erpU0
    refine ⟨rfl, ?_⟩
    have hprops := syncUsrLoop_props env users 0 (usrInitState emps0 erpU0)
    have hsum := usum_counters_eq _ hprops
    unfold syncUsers mkUsrRunOut
    rw [List.map_append, List.sum_append]
    cases ht : (syncUsrLoop env users 0 (usrInitState emps0 erpU0)).2.1 with
    | none => simp [hsum]
    | some n => simp [hsum, uLineContrib]
  · intro l hl
    cases l <;> simp_all [isPhase1ErrorLine, uLineContrib]

/-- A chat account and an ERP employee for the C10 counterexample. -/
def cU : MMUser :=
  { id := "u1", email := "a@b.c", username := "alice", firstName := "A",
    lastName := "B", deleteAt := 0, isBot := false }

def cE : Employee :=
  { name := "HR-1", companyEmail := "a@b.c", firstName := "A", lastName := "B",
    gender := "", dateOfBirth := "", dateOfJoining := "", status := "Active",
    customChatID := "old" }

/-- A `SyncUsers` environment whose fourth fallible ERP call (the
`CreateUser` of the single record below) fails. -/
def cUsrEnv : UsrEnv :=
  { erpFail := fun n => if n == 3 then some "HTTP 500" else none,
    empIdGen := fun _ => "EMP", erpUserIdGen := fun _ => "USR",
    timeoutAt := fun _ => false }

/-- C10 counterexample.  One chat account whose employee is re-linked
(UpdatedCount = 1) and whose ERP-user creation then fails: its single result
line is the per-record error "… ERPNext User Creation Failed", yet the record
contributes 1 to UpdatedCount and to TotalProcessed — contradicting the claim
that a record whose processing ended in a per-record error contributes to
none of the four counters nor to TotalProcessed. -/
theorem sync_total_processed_counterexample :
    (syncUsers cUsrEnv [cU] [cE] []).res.updatedCount = 1 ∧
      (syncUsers cUsrEnv [cU] [cE] []).res.totalProcessed = 1 ∧
      (syncUsers cUsrEnv [cU] [cE] []).res.userResults =
        [ULine.erpUserCreateFailed false "alice" "a@b.c" "HTTP 500"] := by
  refine ⟨?_, ?_, ?_⟩ <;> rfl

/-! ### Concrete instances and witnesses -/

theorem cEmpEnv_idGen_ne (n : Nat) : cEmpEnv.idGen n ≠ "" := by
  intro h
  have := congrArg String.data h
  simp [cEmpEnv] at this

theorem cEmpEnv_idGen_inj : ∀ m n : Nat, m ≠ n →
    cEmpEnv.idGen m ≠ cEmpEnv.idGen n := by
  intro m n hmn heq
  have hd := congrArg String.data heq
  simp only [cEmpEnv] at hd
  have := congrArg List.length hd
  simp at this
  exact hmn this

theorem cEmpEnv_ok : EnvOk cEmpEnv :=
  ⟨fun _ => rfl, fun _ => rfl, cEmpEnv_idGen_ne, cEmpEnv_idGen_inj, fun _ => rfl⟩

/-- The C2/C8 witness employee: unlinked (resp. linked) to the account `cU`. -/
def cE2 : Employee := { cE with customChatID := "" }

def cE8 : Employee := { cE with customChatID := "u1" }

theorem cU_fresh : ∀ (n : Nat), ∀ x ∈ [cU], cEmpEnv.idGen n ≠ x.id := by
  intro n x hx heq
  rw [List.mem_singleton.1 hx] at heq
  have hd : ('c' :: List.replicate n 'x') = "u1".data := congrArg String.data heq
  injection hd with h1 _
  exact absurd h1 (by decide)

/-- Witness for C2 at one employee and one pre-existing matching chat
account: the first run links (Linked/Updated outcome), the second run yields
zero Created, zero Updated, and the record resolves AlreadyLinked. -/
theorem syncEmployees_idempotent_witness :
    (syncEmployees cEmpEnv (syncEmployees cEmpEnv [cE2] [cU]).empsOut
        (syncEmployees cEmpEnv [cE2] [cU]).mmOut).res.createdCount = 0 ∧
      (syncEmployees cEmpEnv (syncEmployees cEmpEnv [cE2] [cU]).empsOut
        (syncEmployees cEmpEnv [cE2] [cU]).mmOut).res.updatedCount = 0 ∧
      ∃ f ln em,
        (syncEmployees cEmpEnv (syncEmployees cEmpEnv [cE2] [cU]).empsOut
          (syncEmployees cEmpEnv [cE2] [cU]).mmOut).res.userResults[0]? =
          some (ELine.alreadyMapped f ln em) := by
  have h := syncEmployees_idempotent cEmpEnv cEmpEnv [cE2] [cU] cEmpEnv_ok
    (fun _ => rfl)
    (by intro a ha b hb hab; rw [List.mem_singleton.1 ha, List.mem_singleton.1 hb])
    (by intro x hx; rw [List.mem_singleton.1 hx]; decide) cU_fresh
  exact ⟨h.1, h.2.1,
    h.2.2 0 (ELine.mappedExisting "A" "B" "a@b.c") rfl (by decide)⟩

/-- Witness for C1: in a concrete `SyncEmployees` run the stale link `"old"`
is overwritten only because it resolves to no live account, and in a concrete
`SyncUsers` run likewise. -/
theorem sync_no_overwrite_witness :
    ((⟨"HR-1", "c", "old", "a@b.c"⟩ : UpdOp) ∈
        (syncEmployees cEmpEnv [cE] []).ops ∧
      ¬ ∃ x, findById [] "old" = some x ∧ x.deleteAt = 0 ∧
        x.email = "a@b.c") ∧
    ((⟨"HR-1", "u1", "old", "a@b.c"⟩ : UpdOp) ∈
        (syncUsers cUsrEnv [cU] [cE] []).ops ∧
      ¬ ∃ x, x ∈ [cU] ∧ x.id = "old" ∧ x.deleteAt = 0 ∧
        x.email = "a@b.c") := by
  refine ⟨⟨?_, ?_⟩, ⟨?_, ?_⟩⟩
  · decide
  · exact sync_no_overwrite_of_live_link.1 cEmpEnv [cE] []
      ⟨"HR-1", "c", "old", "a@b.c"⟩ (by decide) (by decide)
  · decide
  · exact sync_no_overwrite_of_live_link.2 cUsrEnv [cU] [cE] []
      (by intro x hx y hy _ _ _
          rw [List.mem_singleton.1 hx, List.mem_singleton.1 hy])
      ⟨"HR-1", "u1", "old", "a@b.c"⟩ (by decide) (by decide)

def cEmpEnvT : EmpEnv := { cEmpEnv with timeoutAt := fun j => j == 1 }

def cUsrEnvT : UsrEnv := { cUsrEnv with timeoutAt := fun j => j == 1 }

/-- Witness for C4: two-record runs whose deadline first expires before
record 1. -/
theorem sync_deadline_truncation_witness :
    ((syncEmployees cEmpEnvT [cE, cE] []).res.timedOut = true ∧
      (syncEmployees cEmpEnvT [cE, cE] []).res.userResults.length = 2 ∧
      (syncEmployees cEmpEnvT [cE, cE] []).res.userResults.getLast? =
        some (ELine.timeoutLine 1) ∧
      (syncEmployees cEmpEnvT [cE, cE] []).res.userResults.countP
        isTimeoutLine = 1 ∧
      (syncEmployees cEmpEnvT [cE, cE] []).res.totalProcessed < 2) ∧
    ((syncUsers cUsrEnvT [cU, cU] [cE] []).res.timedOut = true ∧
      (syncUsers cUsrEnvT [cU, cU] [cE] []).res.userResults.length = 2 ∧
      (syncUsers cUsrEnvT [cU, cU] [cE] []).res.userResults.getLast? =
        some (ULine.timeoutLine 1) ∧
      (syncUsers cUsrEnvT [cU, cU] [cE] []).res.userResults.countP
        isUTimeoutLine = 1 ∧
      (syncUsers cUsrEnvT [cU, cU] [cE] []).res.totalProcessed < 2) := by
  constructor
  · have h := sync_deadline_truncation.1 cEmpEnvT [cE, cE] [] 1
      (by intro j hj
          have hj0 : j = 0 := by omega
          subst hj0
          rfl)
      rfl (by decide)
    exact ⟨h.1, h.2.1, h.2.2.1, h.2.2.2.1, h.2.2.2.2⟩
  · have h := sync_deadline_truncation.2 cUsrEnvT [cU, cU] [cE] [] 1
      (by intro j hj
          have hj0 : j = 0 := by omega
          subst hj0
          rfl)
      rfl (by decide)
    exact ⟨h.1, h.2.1, h.2.2.1, h.2.2.2.1, h.2.2.2.2⟩

/-- Witness for C7: with bootstrap and fetch succeeding, both full runs
return Ok and give each fetched record exactly one audit line. -/
theorem sync_abort_policy_witness :
    (∃ r, syncEmployeesFull (Except.ok true) (Except.ok ())
      (Except.ok [cE]) cEmpEnv [] = Except.ok r) ∧
      (syncEmployees cEmpEnv [cE] []).res.userResults.length = 1 ∧
      (∃ r, syncUsersFull (Except.ok true) (Except.ok ()) (Except.ok true)
        (Except.ok ()) (Except.ok [cU]) cUsrEnv [cE] [] = Except.ok r) ∧
      (syncUsers cUsrEnv [cU] [cE] []).res.userResults.length = 1 := by
  refine ⟨?_, ?_, ?_, ?_⟩
  · exact (sync_abort_policy.1 (Except.ok true) (Except.ok ())
      (Except.ok [cE]) cEmpEnv []).1.2
      ⟨⟨true, rfl⟩, by intro h; simp at h, ⟨[cE], rfl⟩⟩
  · exact (sync_abort_policy.1 (Except.ok true) (Except.ok ())
      (Except.ok [cE]) cEmpEnv []).2 [cE] (syncEmployees cEmpEnv [cE] [])
      rfl rfl (fun _ => rfl)
  · exact (sync_abort_policy.2 (Except.ok true) (Except.ok true)
      (Except.ok ()) (Except.ok ()) (Except.ok [cU]) cUsrEnv [cE] []).1.2
      ⟨⟨true, rfl⟩, by intro h; simp at h, ⟨true, rfl⟩,
        by intro h; simp at h, ⟨[cU], rfl⟩⟩
  · exact (sync_abort_policy.2 (Except.ok true) (Except.ok true)
      (Except.ok ()) (Except.ok ()) (Except.ok [cU]) cUsrEnv [cE] []).2 [cU]
      (syncUsers cUsrEnv [cU] [cE] []) rfl rfl (fun _ => rfl)

/-- Witness for C8: an employee already linked to the live account `cU`
makes only the `GetUser` call and resolves AlreadyLinked. -/
theorem syncEmployees_live_link_witness :
    [ECall.getUser "u1"] = [ECall.getUser "u1"] ∧
      ([ECall.getUser "u1"] : List ECall).countP isEmailLookup = 0 ∧
      (syncEmployees cEmpEnv [cE8] [cU]).res.userResults[0]? =
        some (ELine.alreadyMapped "A" "B" "a@b.c") := by
  have h := syncEmployees_live_link_short_circuit cEmpEnv [cE8] [cU] 0
    (by decide) (by decide) (by decide) (by decide) (by decide)
    [ECall.getUser "u1"] rfl
  exact ⟨h.1 ▸ rfl, h.2.1, h.2.2⟩

/-- The C9 witness environment: the first `CreateUser` fails with a username
conflict, the retried create fails with another error. -/
def cEnv9 : EmpEnv :=
  { cEmpEnv with createErr := fun n =>
      if n == 0 then some "username exists" else some "boom" }

/-- Witness for C9: the collision is retried exactly once with the suffixed
username and the failed retry ends as a per-record failure. -/
theorem syncEmployees_collision_retry_witness :
    ([] : List ECall).countP isCreateCall = 0 ∧
      (createPath cEnv9 0 (empInitState []) cE []).1.calls.countP
        isCreateCall ≤ 2 ∧
      (createPath cEnv9 0 (empInitState []) cE []).1.line =
        ELine.createFailedRetry "A" "B" "a@b.c" "boom" := by
  have h := syncEmployees_collision_retry_once cEnv9 0 (empInitState []) cE []
    (by decide)
  exact ⟨by decide, h.1,
    ((h.2.2.2 "username exists" rfl (by decide)).2 "boom" rfl).1⟩

/-- Witness for C10: concrete error lines contribute zero. -/
theorem sync_total_processed_witness :
    isErrorLineE (ELine.updateFailed "A" "B" "e" "m") = true ∧
      lineContrib (ELine.updateFailed "A" "B" "e" "m") = 0 ∧
      isPhase1ErrorLine (ULine.createFailed "a" "e" "m") = true ∧
      uLineContrib (ULine.createFailed "a" "e" "m") = 0 ∧
      (syncUsers cUsrEnv [cU] [cE] []).res.totalProcessed =
        (syncUsers cUsrEnv [cU] [cE] []).res.matchedCount +
          (syncUsers cUsrEnv [cU] [cE] []).res.updatedCount +
          (syncUsers cUsrEnv [cU] [cE] []).res.createdCount +
          (syncUsers cUsrEnv [cU] [cE] []).res.skippedCount := by
  refine ⟨by decide, sync_total_processed.2.1 _ (by decide), by decide,
    sync_total_processed.2.2.2 _ (by decide),
    (sync_total_processed.2.2.1 cUsrEnv [cU] [cE] []).1⟩
